import Mathlib

/-!
Verification of the backdrop query-and-aggregation core
(`backdrop/core/timeseries.py`, `backdrop/read/query.py`,
`backdrop/core/storage/mongo.py`).

Timestamps are modelled as naive proleptic-Gregorian datetimes (the code
normalizes everything to UTC, so time zones carry no information here).
`enc` linearizes a datetime; on valid datetimes it is strictly monotone for
the field-lexicographic order that Python `datetime` comparison uses, so
`enc a ≤ enc b` is the model of `a <= b`.
-/

/-- A Python `datetime` value (UTC-normalized, so no tzinfo field). -/
structure Datetime where
  year : Nat
  month : Nat
  day : Nat
  hour : Nat
  minute : Nat
  second : Nat
  microsecond : Nat
deriving DecidableEq, Repr

/-- Gregorian leap-year rule, as used by Python's `calendar`/`datetime`. -/
def isLeap (y : Nat) : Bool :=
  (y % 4 == 0 && y % 100 != 0) || (y % 400 == 0)

/-- Number of days in a month of a given year. -/
def daysInMonth (y m : Nat) : Nat :=
  if m = 2 then (if isLeap y then 29 else 28)
  else if m = 4 ∨ m = 6 ∨ m = 9 ∨ m = 11 then 30
  else 31

/-- Validity of a datetime: exactly the field ranges Python's `datetime`
constructor enforces (we do not model the year-9999 upper cap). -/
def Valid (t : Datetime) : Prop :=
  1 ≤ t.year ∧ 1 ≤ t.month ∧ t.month ≤ 12 ∧
  1 ≤ t.day ∧ t.day ≤ daysInMonth t.year t.month ∧
  t.hour < 24 ∧ t.minute < 60 ∧ t.second < 60 ∧ t.microsecond < 1000000

instance (t : Datetime) : Decidable (Valid t) := by
  unfold Valid; infer_instance

/-- Microseconds elapsed since midnight. -/
def timeUS (t : Datetime) : Nat :=
  ((t.hour * 60 + t.minute) * 60 + t.second) * 1000000 + t.microsecond

/-- A linearization of the date fields: strictly monotone for the
lexicographic (year, month, day) order whenever `month < 13` and `day < 32`,
which validity guarantees. -/
def dateKey (t : Datetime) : Nat :=
  (t.year * 13 + t.month) * 32 + t.day

/-- A linearization of a whole datetime; on valid datetimes, `enc` ordering
coincides with Python's `datetime` comparison. -/
def enc (t : Datetime) : Nat :=
  dateKey t * 86400000000 + timeUS t

lemma timeUS_lt (t : Datetime) (h : Valid t) : timeUS t < 86400000000 := by
  obtain ⟨_, _, _, _, _, h6, h7, h8, h9⟩ := h
  unfold timeUS; omega

lemma daysInMonth_le (y m : Nat) : daysInMonth y m ≤ 31 := by
  unfold daysInMonth; split
  · split <;> omega
  · split <;> omega

lemma daysInMonth_pos (y m : Nat) : 1 ≤ daysInMonth y m := by
  unfold daysInMonth; split
  · split <;> omega
  · split <;> omega

/-! ### Calendar arithmetic (models of `timedelta` / `relativedelta` steps) -/

/-- `datetime + timedelta(days=1)` restricted to the date fields. -/
def addDay (t : Datetime) : Datetime :=
  if t.day < daysInMonth t.year t.month then { t with day := t.day + 1 }
  else if t.month < 12 then { t with month := t.month + 1, day := 1 }
  else { t with year := t.year + 1, month := 1, day := 1 }

/-- `datetime - timedelta(days=1)` restricted to the date fields. -/
def subDay (t : Datetime) : Datetime :=
  if 1 < t.day then { t with day := t.day - 1 }
  else if 1 < t.month then
    { t with month := t.month - 1, day := daysInMonth t.year (t.month - 1) }
  else { t with year := t.year - 1, month := 12, day := 31 }

/-- `datetime + timedelta(days=k)`. -/
def addDays (t : Datetime) : Nat → Datetime
  | 0 => t
  | k + 1 => addDay (addDays t k)

/-- `datetime - timedelta(days=k)`. -/
def subDays (t : Datetime) : Nat → Datetime
  | 0 => t
  | k + 1 => subDay (subDays t k)

/-- `datetime + timedelta(hours=1)`. -/
def addHour (t : Datetime) : Datetime :=
  if t.hour < 23 then { t with hour := t.hour + 1 }
  else { addDay t with hour := 0 }

/-- `datetime + timedelta(hours=k)`. -/
def addHours (t : Datetime) : Nat → Datetime
  | 0 => t
  | k + 1 => addHour (addHours t k)

/-- `datetime - timedelta(hours=1)`. -/
def subHour (t : Datetime) : Datetime :=
  if 1 ≤ t.hour then { t with hour := t.hour - 1 }
  else { subDay t with hour := 23 }

/-- `datetime - timedelta(hours=k)`. -/
def subHours (t : Datetime) : Nat → Datetime
  | 0 => t
  | k + 1 => subHour (subHours t k)

/-- `datetime + relativedelta(months=k)`: month arithmetic with the day
clamped once to the target month's length (dateutil semantics). -/
def addMonths (t : Datetime) (k : Nat) : Datetime :=
  let m0 := t.month - 1 + k
  let y := t.year + m0 / 12
  let m := m0 % 12 + 1
  { t with year := y, month := m, day := min t.day (daysInMonth y m) }

/-- `datetime - relativedelta(months=k)` (dateutil semantics, one clamp). -/
def subMonths (t : Datetime) (k : Nat) : Datetime :=
  let tot := t.year * 12 + (t.month - 1) - k
  let y := tot / 12
  let m := tot % 12 + 1
  { t with year := y, month := m, day := min t.day (daysInMonth y m) }

/-- `datetime + relativedelta(years=k)` (day clamped, Feb 29 → Feb 28). -/
def addYears (t : Datetime) (k : Nat) : Datetime :=
  { t with year := t.year + k,
           day := min t.day (daysInMonth (t.year + k) t.month) }

/-- `datetime - relativedelta(years=k)`. -/
def subYears (t : Datetime) (k : Nat) : Datetime :=
  { t with year := t.year - k,
           day := min t.day (daysInMonth (t.year - k) t.month) }

/-- Days contributed by the whole years before year `y` (proleptic
Gregorian, year 1 is the first year). -/
def daysBeforeYear (y : Nat) : Nat :=
  365 * (y - 1) + (y - 1) / 4 + (y - 1) / 400 - (y - 1) / 100

/-- Days contributed by the whole months before month `m` of year `y`. -/
def daysBeforeMonth (y : Nat) : Nat → Nat
  | 0 => 0
  | m + 1 => if m = 0 then 0 else daysBeforeMonth y m + daysInMonth y m

/-- Day number of a date, with 0001-01-01 (a Monday) as day 0. -/
def rataDie (t : Datetime) : Nat :=
  daysBeforeYear t.year + daysBeforeMonth t.year t.month + (t.day - 1)

/-- Python's `date.weekday()`: 0 = Monday. -/
def weekday (t : Datetime) : Nat := rataDie t % 7

/-- `_truncate_time` from `timeseries.py`: zero the time-of-day fields. -/
def truncateTime (t : Datetime) : Datetime :=
  { t with hour := 0, minute := 0, second := 0, microsecond := 0 }

-- scratch checks
example : weekday ⟨2021, 1, 4, 0, 0, 0, 0⟩ = 0 := by decide
example : weekday ⟨2014, 1, 9, 0, 0, 0, 0⟩ = 3 := by decide
example : addDays ⟨2020, 2, 28, 0, 0, 0, 0⟩ 2 = ⟨2020, 3, 1, 0, 0, 0, 0⟩ := by decide
example : addMonths ⟨2021, 1, 31, 0, 0, 0, 0⟩ 1 = ⟨2021, 2, 28, 0, 0, 0, 0⟩ := by decide
example : subMonths ⟨2021, 1, 31, 5, 0, 0, 0⟩ 3 = ⟨2020, 10, 31, 5, 0, 0, 0⟩ := by decide

/-! ### The Period strategies (`timeseries.py`, classes Hour..Year)

The source represents periods as one subclass per granularity; following
the spec's own design note we model them as a closed enumeration whose
operations dispatch by case, each case transcribing the corresponding
Python method. -/

inductive Period where
  | hour | day | week | month | quarter | year
deriving DecidableEq, Repr

/-- `Period.name` (class attribute `name` of each subclass). -/
def Period.name : Period → String
  | .hour => "hour" | .day => "day" | .week => "week"
  | .month => "month" | .quarter => "quarter" | .year => "year"

/-- `Period.start_at_key`: `"_%s_start_at" % self.name`. -/
def Period.start_at_key (p : Period) : String :=
  "_" ++ p.name ++ "_start_at"

/-- `Quarter.start`'s month choice:
`next(q for q in [10, 7, 4, 1] if month >= q)`. -/
def quarterMonth (m : Nat) : Nat :=
  if 10 ≤ m then 10 else if 7 ≤ m then 7 else if 4 ≤ m then 4 else 1

/-- `Period.start` of each granularity:
hour truncates to the hour; day truncates to midnight; week truncates to
midnight and rolls back to the most recent Monday
(`relativedelta(weekday=MO(-1))`); month/quarter/year replace the date
fields with the bucket's first day at midnight. -/
def Period.start : Period → Datetime → Datetime
  | .hour, t => { t with minute := 0, second := 0, microsecond := 0 }
  | .day, t => truncateTime t
  | .week, t => subDays (truncateTime t) (weekday t)
  | .month, t => { t with day := 1, hour := 0, minute := 0, second := 0,
                          microsecond := 0 }
  | .quarter, t => { t with month := quarterMonth t.month, day := 1,
                            hour := 0, minute := 0, second := 0,
                            microsecond := 0 }
  | .year, t => { t with month := 1, day := 1, hour := 0, minute := 0,
                         second := 0, microsecond := 0 }

/-- `timestamp.time() == time(0, 0, 0, 0)` (`Period._is_start_of_day`). -/
def isStartOfDay (t : Datetime) : Prop :=
  t.hour = 0 ∧ t.minute = 0 ∧ t.second = 0 ∧ t.microsecond = 0

instance (t : Datetime) : Decidable (isStartOfDay t) := by
  unfold isStartOfDay; infer_instance

/-- `Period.valid_start_at` of each granularity. -/
def Period.valid_start_at : Period → Datetime → Prop
  | .hour, t => t.minute = 0 ∧ t.second = 0 ∧ t.microsecond = 0
  | .day, t => isStartOfDay t
  | .week, t => weekday t = 0 ∧ isStartOfDay t
  | .month, t => t.day = 1 ∧ isStartOfDay t
  | .quarter, t => t.day = 1 ∧ (t.month = 10 ∨ t.month = 7 ∨ t.month = 4
                                ∨ t.month = 1) ∧ isStartOfDay t
  | .year, t => t.month = 1 ∧ t.day = 1 ∧ isStartOfDay t

instance (p : Period) (t : Datetime) : Decidable (p.valid_start_at t) := by
  cases p <;> (unfold Period.valid_start_at; infer_instance)

/-- `Period._is_boundary`: `valid_start_at` and start-of-day, except that
`Hour` overrides it to `valid_start_at` alone. -/
def Period.is_boundary (p : Period) (t : Datetime) : Prop :=
  match p with
  | .hour => p.valid_start_at t
  | _ => p.valid_start_at t ∧ isStartOfDay t

instance (p : Period) (t : Datetime) : Decidable (p.is_boundary t) := by
  cases p <;> (unfold Period.is_boundary; infer_instance)

/-- `timestamp + self._delta`, one period step
(`timedelta(hours=1)` / `timedelta(days=1)` / `timedelta(days=7)` /
`relativedelta(months=1)` / `relativedelta(months=3)` /
`relativedelta(years=1)`). -/
def Period.step : Period → Datetime → Datetime
  | .hour, t => addHour t
  | .day, t => addDay t
  | .week, t => addDays t 7
  | .month, t => addMonths t 1
  | .quarter, t => addMonths t 3
  | .year, t => addYears t 1

/-- `timestamp + self._delta * n` for nonnegative `n` (timedeltas scale to
`timedelta(days=n)` etc.; relativedeltas scale to `months=n`/`years=n`,
applied with a single day clamp). -/
def Period.stepN : Period → Datetime → Nat → Datetime
  | .hour, t, n => addHours t n
  | .day, t, n => addDays t n
  | .week, t, n => addDays t (7 * n)
  | .month, t, n => addMonths t n
  | .quarter, t, n => addMonths t (3 * n)
  | .year, t, n => addYears t n

/-- `timestamp + self._delta * n` for negative `n` (i.e. minus `k` steps). -/
def Period.stepBackN : Period → Datetime → Nat → Datetime
  | .hour, t, n => subHours t n
  | .day, t, n => subDays t n
  | .week, t, n => subDays t (7 * n)
  | .month, t, n => subMonths t n
  | .quarter, t, n => subMonths t (3 * n)
  | .year, t, n => subYears t n

/-- `Period.end`: a boundary timestamp is returned unchanged, otherwise
the start of the period after `timestamp + self._delta`. -/
def Period.stop (p : Period) (t : Datetime) : Datetime :=
  if p.is_boundary t then t else p.start (p.step t)

/-- The body of `Period.range`'s while loop, with explicit fuel (the loop
terminates because each step strictly advances the cursor; `Period.range`
supplies enough fuel for the loop to run to completion). -/
def rangeAux (p : Period) : Nat → Datetime → Datetime → List (Datetime × Datetime)
  | 0, _, _ => []
  | fuel + 1, s, e =>
    if enc s < enc e then (s, p.step s) :: rangeAux p fuel (p.step s) e
    else []

/-- `Period.range(start, end)`: buckets `(cursor, cursor + delta)` from
`start(start)` while the cursor is before `end(end)`. -/
def Period.range (p : Period) (s e : Datetime) : List (Datetime × Datetime) :=
  rangeAux p (enc (p.stop e) + 1) (p.start s) (p.stop e)

/-! ### Calendar lemmas -/

lemma addDay_valid {t : Datetime} (h : Valid t) : Valid (addDay t) := by
  obtain ⟨y, m, d, hh, mi, s, us⟩ := t
  obtain ⟨h1, h2, h3, h4, h5, h6, h7, h8, h9⟩ := h
  have p1 := daysInMonth_pos y (m + 1)
  have p2 := daysInMonth_pos (y + 1) 1
  unfold addDay; dsimp at *
  split
  · unfold Valid; dsimp; omega
  · split
    · unfold Valid; dsimp; omega
    · unfold Valid; dsimp; omega

lemma addDay_time (t : Datetime) :
    (addDay t).hour = t.hour ∧ (addDay t).minute = t.minute ∧
    (addDay t).second = t.second ∧ (addDay t).microsecond = t.microsecond := by
  unfold addDay; split
  · exact ⟨rfl, rfl, rfl, rfl⟩
  · split
    · exact ⟨rfl, rfl, rfl, rfl⟩
    · exact ⟨rfl, rfl, rfl, rfl⟩

lemma dateKey_addDay {t : Datetime} (h : Valid t) :
    dateKey t < dateKey (addDay t) := by
  obtain ⟨y, m, d, hh, mi, s, us⟩ := t
  obtain ⟨h1, h2, h3, h4, h5, h6, h7, h8, h9⟩ := h
  have hd : d ≤ 31 := le_trans h5 (daysInMonth_le y m)
  unfold addDay; dsimp at *
  split
  · unfold dateKey; dsimp; omega
  · split
    · unfold dateKey; dsimp; omega
    · unfold dateKey; dsimp; omega

lemma subDay_valid {t : Datetime} (h : Valid t)
    (h2 : 2 ≤ t.year ∨ 2 ≤ t.month ∨ 2 ≤ t.day) : Valid (subDay t) := by
  obtain ⟨y, m, d, hh, mi, s, us⟩ := t
  obtain ⟨h1, h2', h3, h4, h5, h6, h7, h8, h9⟩ := h
  have p1 := daysInMonth_pos y (m - 1)
  have p2 : daysInMonth (y - 1) 12 = 31 := by unfold daysInMonth; norm_num
  unfold subDay; dsimp at *
  split
  · unfold Valid; dsimp; omega
  · split
    · unfold Valid; dsimp; omega
    · unfold Valid; dsimp; omega

lemma subDay_time (t : Datetime) :
    (subDay t).hour = t.hour ∧ (subDay t).minute = t.minute ∧
    (subDay t).second = t.second ∧ (subDay t).microsecond = t.microsecond := by
  unfold subDay; split
  · exact ⟨rfl, rfl, rfl, rfl⟩
  · split
    · exact ⟨rfl, rfl, rfl, rfl⟩
    · exact ⟨rfl, rfl, rfl, rfl⟩

lemma dateKey_subDay {t : Datetime} (h : Valid t) :
    dateKey (subDay t) < dateKey t := by
  obtain ⟨y, m, d, hh, mi, s, us⟩ := t
  obtain ⟨h1, h2, h3, h4, h5, h6, h7, h8, h9⟩ := h
  unfold subDay; dsimp at *
  split
  · unfold dateKey; dsimp; omega
  · split
    · have := daysInMonth_le y (m - 1)
      unfold dateKey; dsimp; omega
    · unfold dateKey; dsimp; omega

lemma daysBeforeMonth_succ (y m : Nat) (hm : 1 ≤ m) :
    daysBeforeMonth y (m + 1) = daysBeforeMonth y m + daysInMonth y m := by
  cases m with
  | zero => omega
  | succ n => simp [daysBeforeMonth]

lemma daysInYear (y : Nat) :
    daysBeforeMonth y 12 + 31 = if isLeap y then 366 else 365 := by
  cases hy : isLeap y <;>
    simp [show (12 : Nat) = 11 + 1 from rfl, daysBeforeMonth, daysInMonth, hy]

lemma isLeap_iff (y : Nat) :
    isLeap y = true ↔ (y % 4 = 0 ∧ y % 100 ≠ 0) ∨ y % 400 = 0 := by
  unfold isLeap
  simp [Bool.or_eq_true, Bool.and_eq_true, beq_iff_eq, bne_iff_ne]

set_option maxHeartbeats 2000000 in
lemma daysBeforeYear_succ (y : Nat) (hy : 1 ≤ y) :
    daysBeforeYear (y + 1) = daysBeforeYear y + (if isLeap y then 366 else 365) := by
  have hiff := isLeap_iff y
  cases hl : isLeap y
  · simp only [hl, Bool.false_eq_true, false_iff] at hiff
    simp only [hl, Bool.false_eq_true, if_false]
    unfold daysBeforeYear
    omega
  · simp only [hl, true_iff] at hiff
    simp only [hl, eq_self_iff_true, if_true]
    unfold daysBeforeYear
    omega

lemma rataDie_addDay {t : Datetime} (h : Valid t) :
    rataDie (addDay t) = rataDie t + 1 := by
  obtain ⟨y, m, d, hh, mi, s, us⟩ := t
  obtain ⟨h1, h2, h3, h4, h5, h6, h7, h8, h9⟩ := h
  unfold addDay; dsimp at *
  split
  · unfold rataDie; dsimp; omega
  · split
    · rename_i hd hm
      have hrec := daysBeforeMonth_succ y m h2
      have hpos := daysInMonth_pos y m
      unfold rataDie; dsimp; omega
    · rename_i hd hm
      have hm12 : m = 12 := by omega
      have h31 : d = 31 := by
        subst hm12
        have : daysInMonth y 12 = 31 := by unfold daysInMonth; norm_num
        omega
      have hrec := daysBeforeYear_succ y h1
      rw [← daysInYear y] at hrec
      have hb1 : daysBeforeMonth (y + 1) 1 = 0 := by simp [daysBeforeMonth]
      subst hm12 h31
      unfold rataDie; dsimp
      rw [hb1]
      omega

lemma rataDie_one : rataDie ⟨1, 1, 1, 0, 0, 0, 0⟩ = 0 := by decide

lemma subDay_spec {t : Datetime} (h : Valid t) (hr : 1 ≤ rataDie t) :
    Valid (subDay t) ∧ rataDie (subDay t) + 1 = rataDie t := by
  obtain ⟨y, m, d, hh, mi, s, us⟩ := t
  obtain ⟨h1, h2, h3, h4, h5, h6, h7, h8, h9⟩ := h
  unfold subDay; dsimp at *
  split
  · constructor
    · unfold Valid; dsimp; omega
    · unfold rataDie at *; dsimp at *; omega
  · split
    · rename_i hd hm
      have hrec := daysBeforeMonth_succ y (m - 1) (by omega)
      have hpos := daysInMonth_pos y (m - 1)
      have hle := daysInMonth_le y (m - 1)
      have hm' : m - 1 + 1 = m := by omega
      rw [hm'] at hrec
      constructor
      · unfold Valid; dsimp; omega
      · unfold rataDie; dsimp; omega
    · rename_i hd hm
      have hm1 : m = 1 := by omega
      have hd1 : d = 1 := by omega
      have hy2 : 2 ≤ y := by
        by_contra hc
        have hy1 : y = 1 := by omega
        subst hy1 hm1 hd1
        simp [rataDie, daysBeforeYear, daysBeforeMonth] at hr
      have hrec := daysBeforeYear_succ (y - 1) (by omega)
      rw [← daysInYear (y - 1)] at hrec
      have hy' : y - 1 + 1 = y := by omega
      rw [hy'] at hrec
      have h12 : daysInMonth (y - 1) 12 = 31 := by unfold daysInMonth; norm_num
      have hb1 : daysBeforeMonth y 1 = 0 := by simp [daysBeforeMonth]
      subst hm1 hd1
      constructor
      · unfold Valid; dsimp; omega
      · unfold rataDie; dsimp
        rw [hb1]
        omega

lemma enc_lt_of_dateKey_lt {a b : Datetime} (ha : Valid a)
    (h : dateKey a < dateKey b) : enc a < enc b := by
  have := timeUS_lt a ha
  unfold enc
  omega

lemma addDays_spec {t : Datetime} (h : Valid t) (k : Nat) :
    Valid (addDays t k) ∧ rataDie (addDays t k) = rataDie t + k ∧
    dateKey t + k ≤ dateKey (addDays t k) ∧
    (addDays t k).hour = t.hour ∧ (addDays t k).minute = t.minute ∧
    (addDays t k).second = t.second ∧
    (addDays t k).microsecond = t.microsecond := by
  induction k with
  | zero => exact ⟨h, rfl, le_refl _, rfl, rfl, rfl, rfl⟩
  | succ n ih =>
    obtain ⟨iv, ir, ik, i1, i2, i3, i4⟩ := ih
    have hv := addDay_valid iv
    have hr := rataDie_addDay iv
    have hk := dateKey_addDay iv
    have ht := addDay_time (addDays t n)
    refine ⟨hv, ?_, ?_, ?_, ?_, ?_, ?_⟩ <;>
      simp only [addDays] <;> omega

lemma subDays_spec {t : Datetime} (h : Valid t) (k : Nat)
    (hk : k ≤ rataDie t) :
    Valid (subDays t k) ∧ rataDie (subDays t k) + k = rataDie t ∧
    dateKey (subDays t k) ≤ dateKey t ∧
    (subDays t k).hour = t.hour ∧ (subDays t k).minute = t.minute ∧
    (subDays t k).second = t.second ∧
    (subDays t k).microsecond = t.microsecond := by
  induction k with
  | zero => exact ⟨h, rfl, le_refl _, rfl, rfl, rfl, rfl⟩
  | succ n ih =>
    obtain ⟨iv, ir, ik, i1, i2, i3, i4⟩ := ih (by omega)
    have h1r : 1 ≤ rataDie (subDays t n) := by omega
    obtain ⟨hv, hr⟩ := subDay_spec iv h1r
    have hk2 := dateKey_subDay iv
    have ht := subDay_time (subDays t n)
    refine ⟨hv, ?_, ?_, ?_, ?_, ?_, ?_⟩ <;>
      simp only [subDays] <;> omega

lemma subDay_addDay {t : Datetime} (h : Valid t) : subDay (addDay t) = t := by
  obtain ⟨y, m, d, hh, mi, s, us⟩ := t
  obtain ⟨h1, h2, h3, h4, h5, h6, h7, h8, h9⟩ := h
  unfold addDay; dsimp at *
  split
  · unfold subDay; dsimp
    rw [if_pos (by omega : 1 < d + 1)]
  · split
    · rename_i hd hm
      unfold subDay; dsimp
      rw [if_pos (by omega : 1 < m + 1)]
      have hdm : daysInMonth y m = d := by omega
      rw [hdm]
    · rename_i hd hm
      have hm12 : m = 12 := by omega
      have h31 : d = 31 := by
        subst hm12
        have : daysInMonth y 12 = 31 := by unfold daysInMonth; norm_num
        omega
      subst hm12 h31
      unfold subDay; dsimp

lemma addDays_add (t : Datetime) (a b : Nat) :
    addDays t (a + b) = addDays (addDays t a) b := by
  induction b with
  | zero => rfl
  | succ n ih =>
    rw [show a + (n + 1) = (a + n) + 1 by omega]
    simp only [addDays]
    rw [ih]

lemma subDays_succ_comm (t : Datetime) (k : Nat) :
    subDays t (k + 1) = subDays (subDay t) k := by
  induction k with
  | zero => rfl
  | succ n ih => simp only [subDays] at *; rw [ih]

lemma subDays_addDays {t : Datetime} (h : Valid t) (k : Nat) :
    subDays (addDays t k) k = t := by
  induction k with
  | zero => rfl
  | succ n ih =>
    have hv : Valid (addDays t n) := (addDays_spec h n).1
    rw [subDays_succ_comm]
    simp only [addDays]
    rw [subDay_addDay hv]
    exact ih

lemma subDays_addDays_of_le {t : Datetime} (h : Valid t) {w n : Nat}
    (hw : w ≤ n) : subDays (addDays t n) w = addDays t (n - w) := by
  have hsplit : n = (n - w) + w := by omega
  have hv : Valid (addDays t (n - w)) := (addDays_spec h (n - w)).1
  calc subDays (addDays t n) w
      = subDays (addDays (addDays t (n - w)) w) w := by rw [← addDays_add, ← hsplit]
    _ = addDays t (n - w) := subDays_addDays hv w

lemma addHour_spec {t : Datetime} (h : Valid t) :
    Valid (addHour t) ∧ enc t < enc (addHour t) ∧
    (addHour t).minute = t.minute ∧ (addHour t).second = t.second ∧
    (addHour t).microsecond = t.microsecond := by
  have hus := timeUS_lt t h
  unfold addHour
  split
  · obtain ⟨y, m, d, hh, mi, s, us⟩ := t
    obtain ⟨h1, h2, h3, h4, h5, h6, h7, h8, h9⟩ := h
    dsimp at *
    refine ⟨?_, ?_, rfl, rfl, rfl⟩
    · unfold Valid; dsimp; omega
    · unfold enc dateKey timeUS; dsimp; omega
  · rename_i hh23
    have hv := addDay_valid h
    have hk := dateKey_addDay h
    have ht := addDay_time t
    rcases hu : addDay t with ⟨y2, m2, d2, hh2, mi2, s2, us2⟩
    rw [hu] at hv hk ht
    obtain ⟨y, m, d, hh0, mi, s, us⟩ := t
    obtain ⟨h1, h2, h3, h4, h5, h6, h7, h8, h9⟩ := h
    obtain ⟨hv1, hv2, hv3, hv4, hv5, hv6, hv7, hv8, hv9⟩ := hv
    obtain ⟨e1, e2, e3, e4⟩ := ht
    dsimp at *
    refine ⟨?_, ?_, ?_, ?_, ?_⟩
    · unfold Valid; dsimp; omega
    · unfold enc dateKey timeUS at *; dsimp at *; omega
    · omega
    · omega
    · omega

lemma addMonths_spec {t : Datetime} (h : Valid t) (k : Nat) (hk : 1 ≤ k) :
    Valid (addMonths t k) ∧ dateKey t < dateKey (addMonths t k) ∧
    (addMonths t k).hour = t.hour ∧ (addMonths t k).minute = t.minute ∧
    (addMonths t k).second = t.second ∧
    (addMonths t k).microsecond = t.microsecond := by
  obtain ⟨y, m, d, hh, mi, s, us⟩ := t
  obtain ⟨h1, h2, h3, h4, h5, h6, h7, h8, h9⟩ := h
  have hd31 : d ≤ 31 := le_trans h5 (daysInMonth_le y m)
  have hp := daysInMonth_pos (y + (m - 1 + k) / 12) ((m - 1 + k) % 12 + 1)
  have hl := daysInMonth_le (y + (m - 1 + k) / 12) ((m - 1 + k) % 12 + 1)
  unfold addMonths; dsimp at *
  refine ⟨?_, ?_, rfl, rfl, rfl, rfl⟩
  · unfold Valid; dsimp; omega
  · unfold dateKey; dsimp; omega

lemma addYears_spec {t : Datetime} (h : Valid t) (k : Nat) (hk : 1 ≤ k) :
    Valid (addYears t k) ∧ dateKey t < dateKey (addYears t k) ∧
    (addYears t k).hour = t.hour ∧ (addYears t k).minute = t.minute ∧
    (addYears t k).second = t.second ∧
    (addYears t k).microsecond = t.microsecond := by
  obtain ⟨y, m, d, hh, mi, s, us⟩ := t
  obtain ⟨h1, h2, h3, h4, h5, h6, h7, h8, h9⟩ := h
  have hd31 : d ≤ 31 := le_trans h5 (daysInMonth_le y m)
  have hp := daysInMonth_pos (y + k) m
  have hl := daysInMonth_le (y + k) m
  unfold addYears; dsimp at *
  refine ⟨?_, ?_, rfl, rfl, rfl, rfl⟩
  · unfold Valid; dsimp; omega
  · unfold dateKey; dsimp; omega

lemma truncate_valid {t : Datetime} (h : Valid t) : Valid (truncateTime t) := by
  obtain ⟨y, m, d, hh, mi, s, us⟩ := t
  obtain ⟨h1, h2, h3, h4, h5, h6, h7, h8, h9⟩ := h
  unfold truncateTime Valid; dsimp at *
  omega

lemma rataDie_truncate (t : Datetime) : rataDie (truncateTime t) = rataDie t := rfl

lemma dateKey_truncate (t : Datetime) : dateKey (truncateTime t) = dateKey t := rfl

lemma truncateTime_eq_self {t : Datetime} (h0 : t.hour = 0) (h1 : t.minute = 0)
    (h2 : t.second = 0) (h3 : t.microsecond = 0) : truncateTime t = t := by
  obtain ⟨y, m, d, hh, mi, s, us⟩ := t
  dsimp at h0 h1 h2 h3
  subst h0 h1 h2 h3
  rfl

lemma subDays_time (t : Datetime) (k : Nat) :
    (subDays t k).hour = t.hour ∧ (subDays t k).minute = t.minute ∧
    (subDays t k).second = t.second ∧
    (subDays t k).microsecond = t.microsecond := by
  induction k with
  | zero => exact ⟨rfl, rfl, rfl, rfl⟩
  | succ n ih =>
    have h := subDay_time (subDays t n)
    simp only [subDays]
    omega

lemma addDays_time (t : Datetime) (k : Nat) :
    (addDays t k).hour = t.hour ∧ (addDays t k).minute = t.minute ∧
    (addDays t k).second = t.second ∧
    (addDays t k).microsecond = t.microsecond := by
  induction k with
  | zero => exact ⟨rfl, rfl, rfl, rfl⟩
  | succ n ih =>
    have h := addDay_time (addDays t n)
    simp only [addDays]
    omega

lemma truncate_addDay (t : Datetime) :
    truncateTime (addDay t) = addDay (truncateTime t) := by
  obtain ⟨y, m, d, hh, mi, s, us⟩ := t
  unfold truncateTime addDay; dsimp
  split <;> (try split) <;> rfl

lemma truncate_addDays (t : Datetime) (k : Nat) :
    truncateTime (addDays t k) = addDays (truncateTime t) k := by
  induction k with
  | zero => rfl
  | succ n ih => simp only [addDays, truncate_addDay, ih]

lemma weekStart_spec {t : Datetime} (h : Valid t) :
    Valid (Period.start .week t) ∧
    rataDie (Period.start .week t) + weekday t = rataDie t ∧
    weekday (Period.start .week t) = 0 ∧
    dateKey (Period.start .week t) ≤ dateKey t ∧
    (Period.start .week t).hour = 0 ∧ (Period.start .week t).minute = 0 ∧
    (Period.start .week t).second = 0 ∧
    (Period.start .week t).microsecond = 0 := by
  have hexp : Period.start .week t = subDays (truncateTime t) (weekday t) := rfl
  have hw : weekday t ≤ rataDie (truncateTime t) := by
    rw [rataDie_truncate]
    exact Nat.mod_le _ _
  obtain ⟨v, r, k, f1, f2, f3, f4⟩ :=
    subDays_spec (truncate_valid h) (weekday t) hw
  rw [rataDie_truncate] at r
  rw [dateKey_truncate] at k
  have htr : (truncateTime t).hour = 0 ∧ (truncateTime t).minute = 0 ∧
      (truncateTime t).second = 0 ∧ (truncateTime t).microsecond = 0 :=
    ⟨rfl, rfl, rfl, rfl⟩
  have hwd : weekday t = rataDie t % 7 := rfl
  have hmod := Nat.mod_le (rataDie t) 7
  rw [hexp]
  refine ⟨v, by omega, ?_, k, by omega, by omega, by omega, by omega⟩
  show rataDie (subDays (truncateTime t) (weekday t)) % 7 = 0
  omega

lemma quarterMonth_cases (m : Nat) :
    quarterMonth m = 10 ∨ quarterMonth m = 7 ∨ quarterMonth m = 4 ∨
    quarterMonth m = 1 := by
  unfold quarterMonth
  split
  · exact Or.inl rfl
  · split
    · exact Or.inr (Or.inl rfl)
    · split
      · exact Or.inr (Or.inr (Or.inl rfl))
      · exact Or.inr (Or.inr (Or.inr rfl))

lemma quarterMonth_le (m : Nat) (hm : 1 ≤ m) : quarterMonth m ≤ m := by
  unfold quarterMonth
  split
  · omega
  · split
    · omega
    · split <;> omega

lemma quarterMonth_idem (m : Nat) :
    quarterMonth (quarterMonth m) = quarterMonth m := by
  rcases quarterMonth_cases m with h | h | h | h <;> rw [h] <;> rfl

/-- `Period.start` is a valid timestamp, is `<=` its argument, and is
idempotent (the heart of claim C5). -/
lemma start_spec (p : Period) {t : Datetime} (h : Valid t) :
    Valid (p.start t) ∧ enc (p.start t) ≤ enc t ∧
    p.start (p.start t) = p.start t := by
  cases p with
  | hour =>
    obtain ⟨y, m, d, hh, mi, s, us⟩ := t
    obtain ⟨h1, h2, h3, h4, h5, h6, h7, h8, h9⟩ := h
    dsimp only at *
    refine ⟨?_, ?_, rfl⟩
    · unfold Period.start Valid; dsimp only; omega
    · unfold Period.start enc dateKey timeUS; dsimp only; omega
  | day =>
    obtain ⟨y, m, d, hh, mi, s, us⟩ := t
    obtain ⟨h1, h2, h3, h4, h5, h6, h7, h8, h9⟩ := h
    dsimp only at *
    refine ⟨?_, ?_, rfl⟩
    · unfold Period.start truncateTime Valid; dsimp only; omega
    · unfold Period.start truncateTime enc dateKey timeUS; dsimp only; omega
  | week =>
    obtain ⟨v, r, w0, k, f1, f2, f3, f4⟩ := weekStart_spec h
    have hus := timeUS_lt t h
    refine ⟨v, ?_, ?_⟩
    · have htus : timeUS (Period.start Period.week t) = 0 := by
        unfold timeUS; omega
      have h1 : enc (Period.start Period.week t) =
          dateKey (Period.start Period.week t) * 86400000000 := by
        unfold enc; omega
      have h2 : enc t = dateKey t * 86400000000 + timeUS t := rfl
      omega
    · show Period.start .week (Period.start .week t) = Period.start .week t
      have hexp : Period.start .week (Period.start .week t) =
          subDays (truncateTime (Period.start .week t))
            (weekday (Period.start .week t)) := rfl
      rw [hexp, w0, truncateTime_eq_self f1 f2 f3 f4]
      rfl
  | month =>
    obtain ⟨y, m, d, hh, mi, s, us⟩ := t
    obtain ⟨h1, h2, h3, h4, h5, h6, h7, h8, h9⟩ := h
    have hp := daysInMonth_pos y m
    dsimp only at *
    refine ⟨?_, ?_, rfl⟩
    · unfold Period.start Valid; dsimp only; omega
    · unfold Period.start enc dateKey timeUS; dsimp only; omega
  | quarter =>
    obtain ⟨y, m, d, hh, mi, s, us⟩ := t
    obtain ⟨h1, h2, h3, h4, h5, h6, h7, h8, h9⟩ := h
    have hp := daysInMonth_pos y (quarterMonth m)
    have hc := quarterMonth_cases m
    have hle : quarterMonth m ≤ m := by
      apply quarterMonth_le
      dsimp only at h2
      omega
    dsimp only at *
    refine ⟨?_, ?_, ?_⟩
    · unfold Period.start Valid; dsimp only; omega
    · unfold Period.start enc dateKey timeUS; dsimp only; omega
    · unfold Period.start; dsimp only
      rw [quarterMonth_idem m]
  | year =>
    obtain ⟨y, m, d, hh, mi, s, us⟩ := t
    obtain ⟨h1, h2, h3, h4, h5, h6, h7, h8, h9⟩ := h
    have hp := daysInMonth_pos y 1
    dsimp only at *
    refine ⟨?_, ?_, rfl⟩
    · unfold Period.start Valid; dsimp only; omega
    · unfold Period.start enc dateKey timeUS; dsimp only; omega

/-- One period step is valid and strictly later. -/
lemma step_spec (p : Period) {t : Datetime} (h : Valid t) :
    Valid (p.step t) ∧ enc t < enc (p.step t) := by
  cases p with
  | hour =>
    obtain ⟨v, e, _⟩ := addHour_spec h
    exact ⟨v, e⟩
  | day =>
    exact ⟨addDay_valid h, enc_lt_of_dateKey_lt h (dateKey_addDay h)⟩
  | week =>
    show Valid (addDays t 7) ∧ enc t < enc (addDays t 7)
    obtain ⟨v, _, k, _⟩ := addDays_spec h 7
    exact ⟨v, enc_lt_of_dateKey_lt h (by omega)⟩
  | month =>
    obtain ⟨v, k, _⟩ := addMonths_spec h 1 (by omega)
    exact ⟨v, enc_lt_of_dateKey_lt h k⟩
  | quarter =>
    obtain ⟨v, k, _⟩ := addMonths_spec h 3 (by omega)
    exact ⟨v, enc_lt_of_dateKey_lt h k⟩
  | year =>
    obtain ⟨v, k, _⟩ := addYears_spec h 1 (by omega)
    exact ⟨v, enc_lt_of_dateKey_lt h k⟩

/-- The start of the bucket after one step is strictly later than `t`
itself (this is what makes `Period.end` of a non-boundary timestamp land
strictly after it). -/
lemma start_step_lt (p : Period) {t : Datetime} (h : Valid t) :
    enc t < enc (p.start (p.step t)) := by
  cases p with
  | hour =>
    show enc t < enc (Period.start .hour (addHour t))
    unfold addHour
    split
    · obtain ⟨y, m, d, hh, mi, s, us⟩ := t
      obtain ⟨h1, h2, h3, h4, h5, h6, h7, h8, h9⟩ := h
      dsimp only at *
      unfold Period.start enc dateKey timeUS; dsimp only
      omega
    · have hk := dateKey_addDay h
      rcases hu : addDay t with ⟨y2, m2, d2, hh2, mi2, s2, us2⟩
      rw [hu] at hk
      apply enc_lt_of_dateKey_lt h
      unfold Period.start dateKey at *; dsimp only at *
      omega
  | day =>
    show enc t < enc (Period.start .day (addDay t))
    have hk := dateKey_addDay h
    apply enc_lt_of_dateKey_lt h
    rw [show Period.start .day (addDay t) = truncateTime (addDay t) from rfl,
      dateKey_truncate]
    exact hk
  | week =>
    show enc t < enc (Period.start .week (addDays t 7))
    have h7 := addDays_spec h 7
    have hexp : Period.start .week (addDays t 7) =
        subDays (truncateTime (addDays t 7)) (weekday (addDays t 7)) := rfl
    have hwd : weekday (addDays t 7) = weekday t := by
      unfold weekday
      rw [h7.2.1]
      omega
    have htr := truncate_addDays t 7
    have hw6 : weekday t < 7 := Nat.mod_lt _ (by omega)
    have hwlt : weekday t ≤ 7 := le_of_lt hw6
    have hcan := subDays_addDays_of_le (truncate_valid h) hwlt
    rw [hexp, hwd, htr, hcan]
    have hspec := addDays_spec (truncate_valid h) (7 - weekday t)
    apply enc_lt_of_dateKey_lt h
    have hdk : dateKey (truncateTime t) = dateKey t := dateKey_truncate t
    omega
  | month =>
    show enc t < enc (Period.start .month (addMonths t 1))
    apply enc_lt_of_dateKey_lt h
    obtain ⟨y, m, d, hh, mi, s, us⟩ := t
    obtain ⟨h1, h2, h3, h4, h5, h6, h7, h8, h9⟩ := h
    have hd31 : d ≤ 31 := le_trans h5 (daysInMonth_le y m)
    dsimp only at *
    unfold addMonths Period.start dateKey; dsimp only
    omega
  | quarter =>
    show enc t < enc (Period.start .quarter (addMonths t 3))
    apply enc_lt_of_dateKey_lt h
    obtain ⟨y, m, d, hh, mi, s, us⟩ := t
    obtain ⟨h1, h2, h3, h4, h5, h6, h7, h8, h9⟩ := h
    have hd31 : d ≤ 31 := le_trans h5 (daysInMonth_le y m)
    dsimp only at *
    unfold addMonths Period.start dateKey; dsimp only
    interval_cases m <;> (norm_num [quarterMonth]; omega)
  | year =>
    show enc t < enc (Period.start .year (addYears t 1))
    apply enc_lt_of_dateKey_lt h
    obtain ⟨y, m, d, hh, mi, s, us⟩ := t
    obtain ⟨h1, h2, h3, h4, h5, h6, h7, h8, h9⟩ := h
    have hd31 : d ≤ 31 := le_trans h5 (daysInMonth_le y m)
    dsimp only at *
    unfold addYears Period.start dateKey; dsimp only
    omega

/-- `Period.end` behaviour (the heart of claim C6): a boundary timestamp is
returned unchanged; otherwise the result is `start(t + delta)`, strictly
after `t`. In both cases the result is valid and `>= t`. -/
lemma stop_spec (p : Period) {t : Datetime} (h : Valid t) :
    (p.is_boundary t → p.stop t = t) ∧
    (¬ p.is_boundary t →
      p.stop t = p.start (p.step t) ∧ enc t < enc (p.stop t)) ∧
    Valid (p.stop t) ∧ enc t ≤ enc (p.stop t) := by
  by_cases hb : p.is_boundary t
  · have he : p.stop t = t := by unfold Period.stop; rw [if_pos hb]
    exact ⟨fun _ => he, fun hn => absurd hb hn, by rw [he]; exact h,
      by rw [he]⟩
  · have he : p.stop t = p.start (p.step t) := by
      unfold Period.stop; rw [if_neg hb]
    have hv : Valid (p.start (p.step t)) :=
      (start_spec p (step_spec p h).1).1
    have hlt : enc t < enc (p.start (p.step t)) := start_step_lt p h
    exact ⟨fun hc => absurd hc hb, fun _ => ⟨he, he ▸ hlt⟩, he ▸ hv,
      le_of_lt (he ▸ hlt)⟩

/-- Hour-alignment: the invariant satisfied by every bucket start that
`Period.range` emits (minute, second and microsecond all zero). -/
def HourAligned (t : Datetime) : Prop :=
  t.minute = 0 ∧ t.second = 0 ∧ t.microsecond = 0

instance (t : Datetime) : Decidable (HourAligned t) := by
  unfold HourAligned; infer_instance

lemma start_hourAligned (p : Period) (t : Datetime) :
    HourAligned (p.start t) := by
  cases p with
  | hour => exact ⟨rfl, rfl, rfl⟩
  | day => exact ⟨rfl, rfl, rfl⟩
  | week =>
    have h := subDays_time (truncateTime t) (weekday t)
    have hexp : Period.start .week t =
        subDays (truncateTime t) (weekday t) := rfl
    rw [hexp]
    exact ⟨h.2.1.trans rfl, h.2.2.1.trans rfl, h.2.2.2.trans rfl⟩
  | month => exact ⟨rfl, rfl, rfl⟩
  | quarter => exact ⟨rfl, rfl, rfl⟩
  | year => exact ⟨rfl, rfl, rfl⟩

lemma step_hourAligned (p : Period) {t : Datetime} (ha : HourAligned t) :
    HourAligned (p.step t) := by
  obtain ⟨a1, a2, a3⟩ := ha
  cases p with
  | hour =>
    show HourAligned (addHour t)
    have h := addDay_time t
    unfold addHour
    split
    · exact ⟨a1, a2, a3⟩
    · exact ⟨by dsimp only; omega, by dsimp only; omega, by dsimp only; omega⟩
  | day =>
    show HourAligned (addDay t)
    have h := addDay_time t
    exact ⟨by omega, by omega, by omega⟩
  | week =>
    show HourAligned (addDays t 7)
    have h := addDays_time t 7
    exact ⟨by omega, by omega, by omega⟩
  | month => exact ⟨a1, a2, a3⟩
  | quarter => exact ⟨a1, a2, a3⟩
  | year => exact ⟨a1, a2, a3⟩

lemma rangeAux_mem_spec (p : Period) (e : Datetime) :
    ∀ (fuel : Nat) (s : Datetime), Valid s → HourAligned s →
      ∀ x ∈ rangeAux p fuel s e,
        x.2 = p.step x.1 ∧ Valid x.1 ∧ HourAligned x.1 ∧
        enc x.1 < enc e := by
  intro fuel
  induction fuel with
  | zero =>
    intro s hs ha x hx
    simp [rangeAux] at hx
  | succ n ih =>
    intro s hs ha x hx
    unfold rangeAux at hx
    split at hx
    · rename_i hcond
      rcases List.mem_cons.mp hx with hx | hx
      · subst hx; exact ⟨rfl, hs, ha, hcond⟩
      · exact ih (p.step s) (step_spec p hs).1 (step_hourAligned p ha) x hx
    · simp at hx

lemma rangeAux_head (p : Period) (e : Datetime) (fuel : Nat) (s : Datetime) :
    rangeAux p fuel s e = [] ∨
    (rangeAux p fuel s e).head? = some (s, p.step s) := by
  cases fuel with
  | zero => exact Or.inl rfl
  | succ n =>
    unfold rangeAux
    split
    · exact Or.inr rfl
    · exact Or.inl rfl

lemma rangeAux_chain (p : Period) (e : Datetime) :
    ∀ (fuel : Nat) (s : Datetime), Valid s →
      List.Chain'
        (fun a b : Datetime × Datetime => b.1 = a.2 ∧ enc a.1 < enc b.1)
        (rangeAux p fuel s e) := by
  intro fuel
  induction fuel with
  | zero => intro s _; exact List.chain'_nil
  | succ n ih =>
    intro s hs
    unfold rangeAux
    split
    · rw [List.chain'_cons']
      refine ⟨?_, ih (p.step s) (step_spec p hs).1⟩
      intro b hb
      rcases rangeAux_head p e n (p.step s) with hh | hh
      · rw [hh] at hb; simp at hb
      · rw [hh] at hb
        simp only [Option.mem_def, Option.some.injEq] at hb
        rw [← hb]
        exact ⟨rfl, (step_spec p hs).2⟩
    · exact List.chain'_nil

/-- All structural facts about `Period.range` needed by the claims:
every element pairs a bucket start with one step later; bucket starts are
valid, hour-aligned and strictly before `end(e)`; consecutive buckets
abut; and when `s < e` the list is nonempty and begins at `start(s)`. -/
lemma range_spec (p : Period) {s e : Datetime} (hs : Valid s) (he : Valid e) :
    (∀ x ∈ p.range s e, x.2 = p.step x.1 ∧ Valid x.1 ∧ HourAligned x.1 ∧
      enc x.1 < enc (p.stop e)) ∧
    List.Chain'
      (fun a b : Datetime × Datetime => b.1 = a.2 ∧ enc a.1 < enc b.1)
      (p.range s e) ∧
    (enc s < enc e → (p.range s e).head? = some (p.start s, p.step (p.start s))) := by
  refine ⟨?_, ?_, ?_⟩
  · exact rangeAux_mem_spec p (p.stop e) _ (p.start s) (start_spec p hs).1
      (start_hourAligned p s)
  · exact rangeAux_chain p (p.stop e) _ (p.start s) (start_spec p hs).1
  · intro hlt
    have h1 : enc (p.start s) ≤ enc s := (start_spec p hs).2.1
    have h2 : enc e ≤ enc (p.stop e) := (stop_spec p he).2.2.2
    have hcond : enc (p.start s) < enc (p.stop e) := by omega
    show (rangeAux p (enc (p.stop e) + 1) (p.start s) (p.stop e)).head? = _
    unfold rangeAux
    rw [if_pos hcond]
    rfl

/-- Consecutive buckets abut (the next bucket starts where the previous
one ends) and bucket starts are strictly increasing along `Period.range`. -/
lemma range_adjacent (p : Period) {s e : Datetime} (hs : Valid s)
    (he : Valid e) {i : Nat} (hi : i + 1 < (p.range s e).length) :
    ((p.range s e).get ⟨i + 1, hi⟩).1 = ((p.range s e).get ⟨i, by omega⟩).2 ∧
    enc ((p.range s e).get ⟨i, by omega⟩).1 <
      enc ((p.range s e).get ⟨i + 1, hi⟩).1 := by
  obtain ⟨hmem, hchain, _⟩ := range_spec p hs he
  have hadj := List.chain'_iff_get.mp hchain i (by omega)
  exact ⟨hadj.1, hadj.2⟩

-- scratch checks
example : Period.range .week ⟨2021, 1, 4, 0, 0, 0, 0⟩ ⟨2021, 1, 18, 0, 0, 0, 0⟩ =
    [(⟨2021, 1, 4, 0, 0, 0, 0⟩, ⟨2021, 1, 11, 0, 0, 0, 0⟩),
     (⟨2021, 1, 11, 0, 0, 0, 0⟩, ⟨2021, 1, 18, 0, 0, 0, 0⟩)] := by decide
example : Period.stop .day ⟨2014, 1, 9, 1, 2, 3, 0⟩ = ⟨2014, 1, 10, 0, 0, 0, 0⟩ := by decide
example : Period.stop .day ⟨2014, 1, 9, 0, 0, 0, 0⟩ = ⟨2014, 1, 9, 0, 0, 0, 0⟩ := by decide

/-! ### Rows (Python dicts with string keys)

A row is an association list in which the LAST binding of a key wins —
exactly the semantics of building a Python dict from a sequence of pairs
(`dict(first.items() + second.items())`, dict comprehensions, item
assignment appending a binding). -/

inductive Value where
  | null
  | dt (t : Datetime)
  | str (s : String)
  | int (n : Int)
  | bool (b : Bool)
deriving DecidableEq, Repr

abbrev Row : Type := List (String × Value)

/-- Dict lookup: the last binding of `k`, if any. -/
def getValue (r : Row) (k : String) : Option Value :=
  ((r.filter (fun kv => kv.1 == k)).getLast?).map Prod.snd

/-- Dict lookup defaulting to `null` (rows are only ever read at keys they
carry, so the default never shows through for in-contract inputs). -/
def getD (r : Row) (k : String) : Value :=
  (getValue r k).getD Value.null

/-- `d[k] = v`: append a binding (it shadows earlier ones). -/
def setItem (r : Row) (k : String) (v : Value) : Row := r ++ [(k, v)]

/-- `_merge(first, second) = dict(first.items() + second.items())`:
bindings of `second` win. -/
def merge (first second : Row) : Row := first ++ second

/-- `_time_to_index(dt) = time.mktime(dt.timetuple())`: a strictly
increasing second-resolution index of the naive fields (`timetuple`
drops microseconds; `mktime` is an increasing function of the tuple). -/
def timeToIndex (t : Datetime) : Nat :=
  (dateKey t * 24 + t.hour) * 3600 + t.minute * 60 + t.second

/-- The `d['_start_at']` grouping index of a row. -/
def startAtIndex (r : Row) : Nat :=
  match getD r "_start_at" with
  | .dt t => timeToIndex t
  | _ => 0

/-- The full-resolution `d['_start_at']` sort key of a row
(`sorted(data, key=lambda d: d['_start_at'])` compares the datetimes
themselves). -/
def startAtSortKey (r : Row) : Nat :=
  match getD r "_start_at" with
  | .dt t => enc t
  | _ => 0

/-- The `sorted(...)` call of `_group_by_start_at` (a stable sort on the
`_start_at` key). -/
def sortByStartAt (data : List Row) : List Row :=
  List.insertionSort (fun a b => startAtSortKey a ≤ startAtSortKey b) data

/-- `_group_by_start_at(data)[idx]`: after sorting, `groupby` collects all
rows with equal index into one run, so the group of `idx` is the sublist
of sorted rows with that index (empty ⟺ `idx not in` the dict). -/
def groupForIndex (data : List Row) (idx : Nat) : List Row :=
  (sortByStartAt data).filter (fun r => startAtIndex r == idx)

/-- `_period_limits(start, end)`. -/
def periodLimits (s e : Datetime) : Row :=
  [("_start_at", Value.dt s), ("_end_at", Value.dt e)]

/-- `timeseries(start, end, period, data, default)` from `timeseries.py`:
one pass over the expected buckets, emitting the stored group when the
bucket's index is present and a default-merged synthesized row otherwise. -/
def timeseries (start stop : Datetime) (period : Period) (data : List Row)
    (default : Row) : List Row :=
  (period.range start stop).flatMap (fun b =>
    let g := groupForIndex data (timeToIndex b.1)
    if g.isEmpty then [merge default (periodLimits b.1 b.2)] else g)

/-! ### `fill_group_by_permutations` -/

/-- First-occurrence deduplication (our fixed enumeration of a Python
`set`, whose iteration order is unspecified). -/
def dedupFirst {α : Type} [DecidableEq α] : List α → List α
  | [] => []
  | v :: vs => v :: (dedupFirst vs).filter (fun x => x != v)

/-- First-occurrence deduplication of key names (dict comprehensions keyed
by group key collapse duplicates). -/
def dedupKeys (l : List String) : List String := dedupFirst l

/-- `unique_values(key) = set([d[key] for d in data])`. -/
def uniqueValues (data : List Row) (k : String) : List Value :=
  dedupFirst (data.map (fun r => getD r k))

/-- The `itertools.product` core of `all_group_by_permutations`: one pair
per (deduplicated) key, rightmost factor varying fastest. -/
def permsOver (data : List Row) : List String → List Row
  | [] => [[]]
  | k :: ks => (uniqueValues data k).flatMap
      (fun v => (permsOver data ks).map (fun perm => (k, v) :: perm))

/-- `all_group_by_permutations()`: `possible_keys`/`step_1` are dicts keyed
by group key (duplicates collapse), `step_2` is their product. -/
def allGroupByPermutations (data : List Row) (group_by : List String) :
    List Row :=
  permsOver data (dedupKeys group_by)

/-- The composite identity key of `hash_datum`
(`'{0}{1}{2}'.format(_start_at, _end_at, [d[key] for key in group_by])`),
modelled as the triple the formatted string encodes (the formatting is
injective on the represented components). -/
def identKey (group_by : List String) (r : Row) :
    Value × Value × List Value :=
  (getD r "_start_at", getD r "_end_at", group_by.map (getD r))

/-- `hash_permutation(perm, start, end)`: the bucket bounds are passed
explicitly, the group-by values come from the permutation dict. -/
def permKey (group_by : List String) (g : Row) (s e : Datetime) :
    Value × Value × List Value :=
  (Value.dt s, Value.dt e, group_by.map (getD g))

/-- `hashed_data = {hash_datum(datum): datum for datum in data}` followed
by `.get(key)`: the last datum carrying the key, if any. -/
def lookupDatum (group_by : List String) (data : List Row)
    (key : Value × Value × List Value) : Option Row :=
  (data.filter (fun d => identKey group_by d == key)).getLast?

/-- `group['_start_at'] = period_start; group['_end_at'] = period_end`:
the permutation dict stamped with the bucket bounds. -/
def stampedPerm (perm : Row) (s e : Datetime) : Row :=
  setItem (setItem perm "_start_at" (Value.dt s)) "_end_at" (Value.dt e)

/-- One `(bucket, permutation)` cell of the inner loop: stamp the
permutation with the bucket bounds, look the cell up among the raw rows,
and fall back to a default-merged synthesized row. -/
def fillCell (group_by : List String) (data : List Row) (default : Row)
    (s e : Datetime) (perm : Row) : Row :=
  match lookupDatum group_by data
      (permKey group_by (stampedPerm perm s e) s e) with
  | some d => d
  | none => merge default (stampedPerm perm s e)

/-- `fill_group_by_permutations(start, end, period, data, default,
group_by)` from `timeseries.py`. -/
def fill_group_by_permutations (start stop : Datetime) (period : Period)
    (data : List Row) (default : Row) (group_by : List String) : List Row :=
  (period.range start stop).flatMap (fun b =>
    (allGroupByPermutations data group_by).map
      (fillCell group_by data default b.1 b.2))

/-! ### Query (`backdrop/read/query.py`) -/

structure Query where
  start_at : Option Datetime
  end_at : Option Datetime
  date : Option Datetime
  delta : Option Int
  period : Option Period
  skip_blanks : Option Bool
  filter_by : List (String × Value)
  group_by : Option String
  sort_by : Option (String × String)
  limit : Option Nat
  collect : List (String × String)
deriving DecidableEq, Repr

/-- `period.delta * delta` added to a timestamp: positive deltas step
forwards, negative ones backwards (scaled timedeltas for hour/day/week,
scaled relativedeltas with a single day clamp for month/quarter/year). -/
def deltaTimes (period : Period) (t : Datetime) (n : Int) : Datetime :=
  if 0 ≤ n then period.stepN t n.toNat else period.stepBackN t (-n).toNat

/-- `Query.__calculate_start_and_end(period, date, delta)`; the extra
`now` argument models the impure `now()` fallback for a missing date. -/
def calculateStartAndEnd (period : Period) (date : Option Datetime)
    (delta : Int) (now : Datetime) : Datetime × Datetime :=
  let d := date.getD now
  if delta > 0 then
    let anchor := period.stop d
    (anchor, deltaTimes period anchor delta)
  else
    let anchor := period.start d
    (deltaTimes period anchor delta, anchor)

/-- `Query.create`: when `delta` is present (and `0` counts as present,
since the code tests `delta is not None`) the window is recomputed from
`(period, date, delta)`; `delta` without a `period` raises in Python,
modelled as `none`. -/
def Query.create (start_at end_at : Option Datetime)
    (date : Option Datetime) (delta : Option Int) (period : Option Period)
    (skip_blanks : Option Bool) (filter_by : List (String × Value))
    (group_by : Option String) (sort_by : Option (String × String))
    (limit : Option Nat) (collect : List (String × String))
    (now : Datetime) : Option Query :=
  match delta with
  | none => some ⟨start_at, end_at, date, none, period, skip_blanks,
      filter_by, group_by, sort_by, limit, collect⟩
  | some n =>
    match period with
    | none => none
    | some p =>
      let se := calculateStartAndEnd p date n now
      some ⟨some se.1, some se.2, date, some n, period, skip_blanks,
        filter_by, group_by, sort_by, limit, collect⟩

/-! ### Storage-native filter translation
(`backdrop/core/storage/mongo.py`) -/

inductive MongoCond where
  | eq (v : Value)
  | timeRange (gte lt : Option Datetime)
  | neNull
deriving DecidableEq, Repr

/-- `time_range_to_mongo_query(start_at, end_at)`: one `_timestamp` entry
holding the present bounds, or nothing when both are absent. -/
def time_range_to_mongo_query (start_at end_at : Option Datetime) :
    List (String × MongoCond) :=
  if start_at.isSome ∨ end_at.isSome then
    [("_timestamp", MongoCond.timeRange start_at end_at)]
  else []

/-- `get_mongo_spec(query) = dict(query.filter_by + time_range.items())`:
an association list with dict (last-wins) semantics, time range last. -/
def get_mongo_spec (q : Query) : List (String × MongoCond) :=
  q.filter_by.map (fun kv => (kv.1, MongoCond.eq kv.2)) ++
    time_range_to_mongo_query q.start_at q.end_at

/-- `Query.to_mongo_query`: the same dict built the other way round — time
range first, then `update(self.filter_by)`. -/
def Query.to_mongo_query (q : Query) : List (String × MongoCond) :=
  time_range_to_mongo_query q.start_at q.end_at ++
    q.filter_by.map (fun kv => (kv.1, MongoCond.eq kv.2))

/-- Dict lookup on a spec: the last binding of the key wins. -/
def specLookup (spec : List (String × MongoCond)) (k : String) :
    Option MongoCond :=
  ((spec.filter (fun kv => kv.1 == k)).getLast?).map Prod.snd

/-- `is_group_query(query)`. -/
def is_group_query (q : Query) : Bool :=
  q.group_by.isSome || q.period.isSome

/-- `get_group_keys(query)`. -/
def get_group_keys (q : Query) : List String :=
  (match q.group_by with | some g => [g] | none => []) ++
    (match q.period with | some p => [p.start_at_key] | none => [])

/-- `build_group_condition(keys, spec)`: `dict(spec.items() + key_filter)`
where `key_filter` adds `{'$ne': None}` for each group key not already in
the spec. -/
def build_group_condition (keys : List String)
    (spec : List (String × MongoCond)) : List (String × MongoCond) :=
  spec ++ (keys.filter (fun k => (specLookup spec k).isNone)).map
    (fun k => (k, MongoCond.neNull))

/-- Modelled from the spec: the storage engine (MongoDB) executing the
emitted condition is an external collaborator, so its matching semantics
is not in this repository. Per the spec's contract, an equality condition
requires the stored value to equal the given one; `$ne None` requires the
field to be present with a non-null value (Mongo reads a missing field as
null); a time range bounds a datetime field by `$gte`/`$lt`. -/
def condMatches (r : Row) (k : String) : MongoCond → Bool
  | .eq v => getValue r k == some v
  | .neNull =>
    match getValue r k with
    | some v => v != Value.null
    | none => false
  | .timeRange g l =>
    match getValue r k with
    | some (Value.dt t) =>
      (match g with | some gb => decide (enc gb ≤ enc t) | none => true) &&
      (match l with | some lb => decide (enc t < enc lb) | none => true)
    | _ => false

/-- Modelled from the spec: a record matches a condition dict iff it
matches the (last-wins) binding of every key. -/
def specMatches (r : Row) (spec : List (String × MongoCond)) : Bool :=
  (dedupKeys (spec.map Prod.fst)).all (fun k =>
    match specLookup spec k with
    | some c => condMatches r k c
    | none => true)

/-! ### Generic list lemmas -/

lemma filter_eq_singleton_of_unique {α : Type} (l : List α) (p : α → Bool)
    (i : Nat) (hi : i < l.length) (hp : p (l.get ⟨i, hi⟩) = true)
    (hq : ∀ j (hj : j < l.length), j ≠ i → p (l.get ⟨j, hj⟩) = false) :
    l.filter p = [l.get ⟨i, hi⟩] := by
  induction l generalizing i with
  | nil => simp at hi
  | cons a tl ih =>
    cases i with
    | zero =>
      have hga : (a :: tl).get ⟨0, hi⟩ = a := rfl
      rw [hga] at hp ⊢
      have hnil : tl.filter p = [] := by
        rw [List.filter_eq_nil_iff]
        intro x hx
        obtain ⟨⟨j, hj⟩, hxj⟩ := List.mem_iff_get.mp hx
        have := hq (j + 1) (by simpa using hj) (by omega)
        rw [show ((a :: tl).get ⟨j + 1, by simpa using hj⟩) = tl.get ⟨j, hj⟩
          from rfl, hxj] at this
        simp [this]
      rw [List.filter_cons_of_pos hp, hnil]
    | succ n =>
      have hpa : p a = false := by
        have := hq 0 (by omega) (by omega)
        simpa using this
      rw [List.filter_cons_of_neg (by simp [hpa])]
      exact ih n (by simpa using hi) hp
        (fun j hj hne => hq (j + 1) (by simpa using hj) (by omega))

lemma flatMap_singletons {α β : Type} (l : List α) (f : α → List β)
    (res : List β) (hlen : res.length = l.length)
    (hf : ∀ i (hi : i < l.length) (hi2 : i < res.length),
      f (l.get ⟨i, hi⟩) = [res.get ⟨i, hi2⟩]) :
    l.flatMap f = res := by
  induction l generalizing res with
  | nil =>
    cases res with
    | nil => rfl
    | cons r rs => simp at hlen
  | cons a tl ih =>
    cases res with
    | nil => simp at hlen
    | cons r rs =>
      have h0 : f a = [r] := hf 0 (by simp) (by simp)
      rw [List.flatMap_cons, h0]
      have htl : tl.flatMap f = rs :=
        ih rs (by simpa using hlen)
          (fun i hi hi2 => hf (i + 1) (by simpa using hi)
            (by simpa using hi2))
      rw [htl]
      rfl

lemma flatMap_fixed_get {α β : Type} (l : List α) (f : α → List β) (K : Nat)
    (hK : ∀ a ∈ l, (f a).length = K) :
    (l.flatMap f).length = l.length * K ∧
    ∀ bi pi (hbi : bi < l.length), pi < K →
      (l.flatMap f)[bi * K + pi]? = (f (l.get ⟨bi, hbi⟩))[pi]? := by
  induction l with
  | nil =>
    refine ⟨by simp, ?_⟩
    intro bi pi hbi
    simp at hbi
  | cons a tl ih =>
    have ha : (f a).length = K := hK a (List.mem_cons_self a tl)
    obtain ⟨ihl, ihg⟩ := ih (fun x hx => hK x (List.mem_cons_of_mem a hx))
    refine ⟨?_, ?_⟩
    · rw [List.flatMap_cons, List.length_append, ha, ihl,
        List.length_cons, Nat.succ_mul]
      omega
    · intro bi pi hbi hpi
      cases bi with
      | zero =>
        rw [List.flatMap_cons, List.getElem?_append,
          if_pos (by rw [ha]; omega : 0 * K + pi < (f a).length)]
        congr 1
        omega
      | succ n =>
        rw [List.flatMap_cons, List.getElem?_append,
          if_neg (by rw [ha, Nat.succ_mul]; omega :
            ¬ (n + 1) * K + pi < (f a).length)]
        have harith : (n + 1) * K + pi - (f a).length = n * K + pi := by
          rw [ha, Nat.succ_mul]; omega
        rw [harith]
        exact ihg n pi (by simpa using hbi) hpi

lemma range_pairwise_encLt (p : Period) {s e : Datetime} (hs : Valid s)
    (he : Valid e) :
    List.Pairwise (fun a b : Datetime × Datetime => enc a.1 < enc b.1)
      (p.range s e) := by
  have hchain := (range_spec p hs he).2.1
  have h2 : List.Chain'
      (fun a b : Datetime × Datetime => enc a.1 < enc b.1) (p.range s e) :=
    hchain.imp (fun a b h => h.2)
  haveI : IsTrans (Datetime × Datetime)
      (fun a b : Datetime × Datetime => enc a.1 < enc b.1) :=
    ⟨fun _ _ _ h1 h2 => Nat.lt_trans h1 h2⟩
  exact List.chain'_iff_pairwise.mp h2

/-! ### Row (dict) lemmas -/

lemma getValue_append (a b : Row) (k : String) :
    getValue (a ++ b) k = (getValue b k).or (getValue a k) := by
  unfold getValue
  rw [List.filter_append, List.getLast?_append]
  cases (List.filter (fun kv => kv.1 == k) b).getLast? <;> rfl

lemma getValue_singleton (k k' : String) (v : Value) :
    getValue [(k', v)] k = if k' = k then some v else none := by
  unfold getValue
  by_cases h : k' = k
  · subst h
    simp
  · simp [List.filter_cons, h]

lemma getValue_setItem_self (r : Row) (k : String) (v : Value) :
    getValue (setItem r k v) k = some v := by
  unfold setItem
  rw [getValue_append, getValue_singleton, if_pos rfl]
  rfl

lemma getValue_setItem_ne (r : Row) {k k' : String} (h : k' ≠ k) (v : Value) :
    getValue (setItem r k' v) k = getValue r k := by
  unfold setItem
  rw [getValue_append, getValue_singleton, if_neg h]
  cases getValue r k <;> rfl

lemma getValue_cons (kv : String × Value) (r : Row) (k : String) :
    getValue (kv :: r) k =
      (getValue r k).or (if kv.1 = k then some kv.2 else none) := by
  have hsplit : kv :: r = [kv] ++ r := rfl
  rw [hsplit, getValue_append, getValue_singleton]

lemma getValue_eq_none_of_not_mem {r : Row} {k : String}
    (h : k ∉ r.map Prod.fst) : getValue r k = none := by
  unfold getValue
  have hnil : r.filter (fun kv => kv.1 == k) = [] := by
    rw [List.filter_eq_nil_iff]
    intro kv hkv
    simp only [beq_iff_eq]
    intro hc
    exact h (hc ▸ List.mem_map_of_mem Prod.fst hkv)
  rw [hnil]
  rfl

lemma getValue_isSome_of_mem_keys {r : Row} {k : String}
    (h : k ∈ r.map Prod.fst) : (getValue r k).isSome := by
  unfold getValue
  obtain ⟨kv, hkv, hfst⟩ := List.mem_map.mp h
  have hmem : kv ∈ r.filter (fun kv => kv.1 == k) :=
    List.mem_filter.mpr ⟨hkv, by simp [hfst]⟩
  cases hlast : (r.filter (fun kv => kv.1 == k)).getLast? with
  | none =>
    rw [List.getLast?_eq_none_iff] at hlast
    rw [hlast] at hmem
    simp at hmem
  | some x => rfl

lemma getD_cons_ne {k' : String} (v : Value) (q : Row) {k : String}
    (h : k' ≠ k) : getD ((k', v) :: q) k = getD q k := by
  unfold getD
  rw [getValue_cons]
  simp [h]

lemma getD_cons_self (k : String) (v : Value) (q : Row)
    (h : k ∉ q.map Prod.fst) : getD ((k, v) :: q) k = v := by
  unfold getD
  rw [getValue_cons, getValue_eq_none_of_not_mem h]
  simp

/-! ### dedup and permutation lemmas -/

lemma mem_dedupFirst {α : Type} [DecidableEq α] {x : α} {l : List α} :
    x ∈ dedupFirst l ↔ x ∈ l := by
  induction l with
  | nil => simp [dedupFirst]
  | cons v vs ih =>
    simp only [dedupFirst, List.mem_cons, List.mem_filter, ih, bne_iff_ne,
      ne_eq]
    by_cases hx : x = v
    · simp [hx]
    · simp [hx]

lemma nodup_dedupFirst {α : Type} [DecidableEq α] (l : List α) :
    (dedupFirst l).Nodup := by
  induction l with
  | nil => simp [dedupFirst]
  | cons v vs ih =>
    rw [show dedupFirst (v :: vs) =
      v :: (dedupFirst vs).filter (fun x => x != v) from rfl]
    rw [List.nodup_cons]
    refine ⟨?_, ih.filter _⟩
    intro hmem
    have := (List.mem_filter.mp hmem).2
    simp at this

lemma permsOver_keys (data : List Row) (ks : List String) :
    ∀ perm ∈ permsOver data ks, perm.map Prod.fst = ks := by
  induction ks with
  | nil =>
    intro perm hp
    simp only [permsOver, List.mem_singleton] at hp
    simp [hp]
  | cons k ks ih =>
    intro perm hp
    simp only [permsOver, List.mem_flatMap, List.mem_map] at hp
    obtain ⟨v, _, q, hq, rfl⟩ := hp
    simp [ih q hq]

lemma sum_map_const {α : Type} (l : List α) (c : Nat) :
    (l.map (fun _ => c)).sum = l.length * c := by
  induction l with
  | nil => simp
  | cons a tl ih =>
    simp only [List.map_cons, List.sum_cons, ih, List.length_cons,
      Nat.succ_mul]
    omega

lemma permsOver_length (data : List Row) (ks : List String) :
    (permsOver data ks).length =
      (ks.map (fun k => (uniqueValues data k).length)).prod := by
  induction ks with
  | nil => rfl
  | cons k ks ih =>
    rw [show permsOver data (k :: ks) = (uniqueValues data k).flatMap
      (fun v => (permsOver data ks).map (fun perm => (k, v) :: perm))
      from rfl]
    rw [List.length_flatMap]
    have hmap : List.map
        (List.length ∘ fun v => (permsOver data ks).map
          (fun perm => (k, v) :: perm)) (uniqueValues data k) =
        (uniqueValues data k).map (fun _ => (permsOver data ks).length) := by
      apply List.map_congr_left
      intro v _
      simp
    rw [hmap, sum_map_const, ih, List.map_cons, List.prod_cons]

lemma permsOver_pairwise (data : List Row) (ks : List String)
    (hnd : ks.Nodup) :
    List.Pairwise (fun p1 p2 : Row => ∃ k ∈ ks, getD p1 k ≠ getD p2 k)
      (permsOver data ks) := by
  induction ks with
  | nil => simp [permsOver]
  | cons k ks ih =>
    rw [List.nodup_cons] at hnd
    obtain ⟨hknotin, hnd2⟩ := hnd
    rw [show permsOver data (k :: ks) = (uniqueValues data k).flatMap
      (fun v => (permsOver data ks).map (fun perm => (k, v) :: perm))
      from rfl]
    rw [List.pairwise_flatMap]
    constructor
    · intro v _
      rw [List.pairwise_map]
      refine (ih hnd2).imp ?_
      intro q1 q2 hex
      obtain ⟨k2, hk2, hne⟩ := hex
      refine ⟨k2, List.mem_cons_of_mem _ hk2, ?_⟩
      have hkk : k ≠ k2 := fun hc => hknotin (hc ▸ hk2)
      rw [getD_cons_ne v q1 hkk, getD_cons_ne v q2 hkk]
      exact hne
    · have huq : (uniqueValues data k).Nodup := nodup_dedupFirst _
      refine huq.imp ?_
      intro v1 v2 hne x hx y hy
      obtain ⟨q1, hq1, rfl⟩ := List.mem_map.mp hx
      obtain ⟨q2, hq2, rfl⟩ := List.mem_map.mp hy
      refine ⟨k, List.mem_cons_self k _, ?_⟩
      have h1 : k ∉ q1.map Prod.fst := by
        rw [permsOver_keys data ks q1 hq1]; exact hknotin
      have h2 : k ∉ q2.map Prod.fst := by
        rw [permsOver_keys data ks q2 hq2]; exact hknotin
      rw [getD_cons_self k v1 q1 h1, getD_cons_self k v2 q2 h2]
      exact hne

/-- Distinct permutations assign distinct ordered value tuples to the
`group_by` keys. -/
lemma permsOver_distinct_valuations (data : List Row) (gb : List String) :
    List.Pairwise (fun p1 p2 : Row => gb.map (getD p1) ≠ gb.map (getD p2))
      (allGroupByPermutations data gb) := by
  have h := permsOver_pairwise data (dedupKeys gb) (nodup_dedupFirst gb)
  refine h.imp ?_
  intro p1 p2 hex heq
  obtain ⟨k, hk, hne⟩ := hex
  have hkgb : k ∈ gb := mem_dedupFirst.mp hk
  exact hne (List.map_inj_left.mp heq k hkgb)

/-- Every permutation binds exactly the deduplicated group-by keys, so it
carries a binding for every group-by key. -/
lemma perm_has_key {data : List Row} {gb : List String} {perm : Row}
    (hp : perm ∈ allGroupByPermutations data gb) {k : String}
    (hk : k ∈ gb) : k ∈ perm.map Prod.fst := by
  rw [permsOver_keys data (dedupKeys gb) perm hp]
  exact mem_dedupFirst.mpr hk

/-! ### Cell identity lemmas -/

lemma getD_stampedPerm_start (perm : Row) (s e : Datetime) :
    getD (stampedPerm perm s e) "_start_at" = Value.dt s := by
  unfold stampedPerm getD
  rw [getValue_setItem_ne _ (by decide) _, getValue_setItem_self]
  rfl

lemma getD_stampedPerm_end (perm : Row) (s e : Datetime) :
    getD (stampedPerm perm s e) "_end_at" = Value.dt e := by
  unfold stampedPerm getD
  rw [getValue_setItem_self]
  rfl

lemma getValue_stampedPerm_other (perm : Row) (s e : Datetime) {k : String}
    (h1 : k ≠ "_start_at") (h2 : k ≠ "_end_at") :
    getValue (stampedPerm perm s e) k = getValue perm k := by
  unfold stampedPerm
  rw [getValue_setItem_ne _ (Ne.symm h2) _, getValue_setItem_ne _ (Ne.symm h1) _]

lemma permKey_stamped (gb : List String) (perm : Row) (s e : Datetime)
    (hgb : ∀ k ∈ gb, k ≠ "_start_at" ∧ k ≠ "_end_at") :
    permKey gb (stampedPerm perm s e) s e =
      (Value.dt s, Value.dt e, gb.map (getD perm)) := by
  unfold permKey
  refine congrArg (fun l => (Value.dt s, Value.dt e, l)) ?_
  apply List.map_congr_left
  intro k hk
  unfold getD
  rw [getValue_stampedPerm_other perm s e (hgb k hk).1 (hgb k hk).2]

lemma identKey_lookupDatum {gb : List String} {data : List Row}
    {key : Value × Value × List Value} {r : Row}
    (h : lookupDatum gb data key = some r) : identKey gb r = key := by
  unfold lookupDatum at h
  have hmem : r ∈ data.filter (fun d => identKey gb d == key) := by
    rw [List.getLast?_eq_getElem?] at h
    exact List.getElem?_mem h
  have := (List.mem_filter.mp hmem).2
  simpa using this

lemma identKey_merge_stamped (gb : List String) (default : Row) (perm : Row)
    (s e : Datetime)
    (hgb : ∀ k ∈ gb, k ≠ "_start_at" ∧ k ≠ "_end_at")
    (hperm : ∀ k ∈ gb, k ∈ perm.map Prod.fst) :
    identKey gb (merge default (stampedPerm perm s e)) =
      (Value.dt s, Value.dt e, gb.map (getD perm)) := by
  unfold identKey
  have hstart : getD (merge default (stampedPerm perm s e)) "_start_at" =
      Value.dt s := by
    unfold getD merge
    rw [getValue_append]
    have := getD_stampedPerm_start perm s e
    unfold getD at this
    cases hv : getValue (stampedPerm perm s e) "_start_at" with
    | none => rw [hv] at this; simp at this
    | some x =>
      rw [hv] at this
      simp at this
      simp [this]
  have hend : getD (merge default (stampedPerm perm s e)) "_end_at" =
      Value.dt e := by
    unfold getD merge
    rw [getValue_append]
    have := getD_stampedPerm_end perm s e
    unfold getD at this
    cases hv : getValue (stampedPerm perm s e) "_end_at" with
    | none => rw [hv] at this; simp at this
    | some x =>
      rw [hv] at this
      simp at this
      simp [this]
  rw [hstart, hend]
  refine congrArg (fun l => (Value.dt s, Value.dt e, l)) ?_
  apply List.map_congr_left
  intro k hk
  unfold getD merge
  rw [getValue_append, getValue_stampedPerm_other perm s e (hgb k hk).1
    (hgb k hk).2]
  have hsome := getValue_isSome_of_mem_keys (hperm k hk)
  cases hv : getValue perm k with
  | none => rw [hv] at hsome; simp at hsome
  | some x => rfl

/-- The identity key of every emitted cell is the cell's composite key
`(bucket start, bucket end, ordered group-by values of the permutation)`. -/
lemma identKey_fillCell (gb : List String) (data : List Row) (default : Row)
    (s e : Datetime) (perm : Row)
    (hgb : ∀ k ∈ gb, k ≠ "_start_at" ∧ k ≠ "_end_at")
    (hperm : ∀ k ∈ gb, k ∈ perm.map Prod.fst) :
    identKey gb (fillCell gb data default s e perm) =
      (Value.dt s, Value.dt e, gb.map (getD perm)) := by
  unfold fillCell
  cases hl : lookupDatum gb data (permKey gb (stampedPerm perm s e) s e) with
  | some d =>
    rw [identKey_lookupDatum hl, permKey_stamped gb perm s e hgb]
  | none => exact identKey_merge_stamped gb default perm s e hgb hperm

/-! ### Period-fill lemmas -/

lemma flatMap_eq_map {α β : Type} (l : List α) (f : α → List β) (g : α → β)
    (h : ∀ b ∈ l, f b = [g b]) : l.flatMap f = l.map g := by
  induction l with
  | nil => rfl
  | cons a tl ih =>
    rw [List.flatMap_cons, h a (List.mem_cons_self a tl), List.map_cons,
      ih (fun b hb => h b (List.mem_cons_of_mem a hb))]
    rfl

lemma enc_eq_timeToIndex_of_aligned {t : Datetime} (h : HourAligned t) :
    enc t = timeToIndex t * 1000000 := by
  obtain ⟨h1, h2, h3⟩ := h
  unfold enc timeToIndex dateKey timeUS at *
  omega

/-- The row a bucket of the period fill receives: the stored row whose
`_start_at` index matches the bucket start, or the default-merged
synthesized row. -/
def periodFillCell (data : List Row) (default : Row)
    (b : Datetime × Datetime) : Row :=
  match data.find? (fun r => startAtIndex r == timeToIndex b.1) with
  | some r => r
  | none => merge default (periodLimits b.1 b.2)

lemma groupForIndex_eq (data : List Row) (idx : Nat)
    (hdist : List.Pairwise
      (fun a b : Row => startAtIndex a ≠ startAtIndex b) data) :
    groupForIndex data idx =
      match data.find? (fun r => startAtIndex r == idx) with
      | some r => [r]
      | none => [] := by
  have hperm : (sortByStartAt data).Perm data :=
    List.perm_insertionSort _ data
  cases hf : data.find? (fun r => startAtIndex r == idx) with
  | none =>
    rw [List.find?_eq_none] at hf
    unfold groupForIndex
    rw [List.filter_eq_nil_iff]
    intro r hr
    exact hf r (hperm.mem_iff.mp hr)
  | some r =>
    have hrmem : r ∈ data := List.mem_of_find?_eq_some hf
    have hrp := List.find?_some hf
    have hsub : data.filter (fun r => startAtIndex r == idx) = [r] := by
      have hrf : r ∈ data.filter (fun r => startAtIndex r == idx) :=
        List.mem_filter.mpr ⟨hrmem, hrp⟩
      have hpf : List.Pairwise (fun a b : Row =>
          startAtIndex a ≠ startAtIndex b)
          (data.filter (fun r => startAtIndex r == idx)) :=
        hdist.filter _
      cases hl : data.filter (fun r => startAtIndex r == idx) with
      | nil => rw [hl] at hrf; simp at hrf
      | cons a tl =>
        cases tl with
        | nil =>
          rw [hl] at hrf
          simp at hrf
          rw [hrf]
        | cons b tl2 =>
          rw [hl] at hpf
          have hab := (List.pairwise_cons.mp hpf).1 b
            (List.mem_cons_self b tl2)
          have haf : a ∈ data.filter (fun r => startAtIndex r == idx) := by
            rw [hl]; exact List.mem_cons_self _ _
          have hbf : b ∈ data.filter (fun r => startAtIndex r == idx) := by
            rw [hl]; exact List.mem_cons_of_mem _ (List.mem_cons_self _ _)
          have ha := (List.mem_filter.mp haf).2
          have hb := (List.mem_filter.mp hbf).2
          simp only [beq_iff_eq] at ha hb
          exact absurd (ha.trans hb.symm) hab
    unfold groupForIndex
    have : (sortByStartAt data).filter (fun r => startAtIndex r == idx) =
        [r] := by
      have := (hperm.filter (fun r => startAtIndex r == idx))
      rw [hsub] at this
      exact List.perm_singleton.mp this
    exact this

/-- The period fill emits exactly one row per expected bucket: the stored
row whose start-at index matches, else the synthesized default row. -/
lemma timeseries_eq_map (p : Period) (s e : Datetime) (data : List Row)
    (default : Row)
    (hdist : List.Pairwise
      (fun a b : Row => startAtIndex a ≠ startAtIndex b) data) :
    timeseries s e p data default =
      (p.range s e).map (periodFillCell data default) := by
  unfold timeseries
  apply flatMap_eq_map
  intro b _
  dsimp only
  rw [groupForIndex_eq data (timeToIndex b.1) hdist]
  unfold periodFillCell
  cases hf : data.find? (fun r => startAtIndex r == timeToIndex b.1) with
  | none => rfl
  | some r => rfl

/-! ### Claim theorems -/

lemma is_boundary_iff (p : Period) (t : Datetime) :
    p.is_boundary t ↔ p.valid_start_at t := by
  cases p with
  | hour => exact Iff.rfl
  | day =>
    show Period.valid_start_at .day t ∧ isStartOfDay t ↔ _
    unfold Period.valid_start_at
    tauto
  | week =>
    show Period.valid_start_at .week t ∧ isStartOfDay t ↔ _
    unfold Period.valid_start_at
    tauto
  | month =>
    show Period.valid_start_at .month t ∧ isStartOfDay t ↔ _
    unfold Period.valid_start_at
    tauto
  | quarter =>
    show Period.valid_start_at .quarter t ∧ isStartOfDay t ↔ _
    unfold Period.valid_start_at
    tauto
  | year =>
    show Period.valid_start_at .year t ∧ isStartOfDay t ↔ _
    unfold Period.valid_start_at
    tauto

/-- C5: for every period (hour, day, week, month, quarter, year) and every
valid timestamp `T`, `P.start (P.start T) = P.start T` and
`P.start T <= T`: `start` is an idempotent floor onto the bucket
boundary. -/
theorem C5_start_idempotent_floor (p : Period) (t : Datetime)
    (h : Valid t) :
    p.start (p.start t) = p.start t ∧ enc (p.start t) ≤ enc t :=
  ⟨(start_spec p h).2.2, (start_spec p h).2.1⟩

theorem C5_start_idempotent_floor_witness :
    Valid ⟨2014, 1, 9, 1, 2, 3, 4⟩ ∧
    (Period.start .week (Period.start .week ⟨2014, 1, 9, 1, 2, 3, 4⟩) =
        Period.start .week ⟨2014, 1, 9, 1, 2, 3, 4⟩ ∧
      enc (Period.start .week ⟨2014, 1, 9, 1, 2, 3, 4⟩) ≤
        enc ⟨2014, 1, 9, 1, 2, 3, 4⟩) :=
  ⟨by decide,
    C5_start_idempotent_floor .week ⟨2014, 1, 9, 1, 2, 3, 4⟩ (by decide)⟩

/-- C6: for every period and valid timestamp `T`: if `T` is already a
valid bucket boundary then `P.end T = T`; otherwise
`P.start T <= T < P.end T` and `P.end T = P.start (T + one step)`. -/
theorem C6_end_of_boundary (p : Period) (t : Datetime) (h : Valid t) :
    (p.valid_start_at t → p.stop t = t) ∧
    (¬ p.valid_start_at t →
      enc (p.start t) ≤ enc t ∧ enc t < enc (p.stop t) ∧
      p.stop t = p.start (p.step t)) := by
  obtain ⟨h1, h2, _, _⟩ := stop_spec p h
  have hb := is_boundary_iff p t
  refine ⟨fun hv => h1 (hb.mpr hv), fun hv => ?_⟩
  have hnb : ¬ p.is_boundary t := fun hc => hv (hb.mp hc)
  obtain ⟨he, hlt⟩ := h2 hnb
  exact ⟨(start_spec p h).2.1, hlt, he⟩

theorem C6_end_of_boundary_witness :
    (Valid ⟨2014, 1, 9, 0, 0, 0, 0⟩ ∧
      Period.valid_start_at .day ⟨2014, 1, 9, 0, 0, 0, 0⟩ ∧
      Period.stop .day ⟨2014, 1, 9, 0, 0, 0, 0⟩ = ⟨2014, 1, 9, 0, 0, 0, 0⟩) ∧
    (Valid ⟨2014, 1, 9, 1, 2, 3, 0⟩ ∧
      ¬ Period.valid_start_at .day ⟨2014, 1, 9, 1, 2, 3, 0⟩ ∧
      (enc (Period.start .day ⟨2014, 1, 9, 1, 2, 3, 0⟩) ≤
          enc ⟨2014, 1, 9, 1, 2, 3, 0⟩ ∧
        enc ⟨2014, 1, 9, 1, 2, 3, 0⟩ <
          enc (Period.stop .day ⟨2014, 1, 9, 1, 2, 3, 0⟩) ∧
        Period.stop .day ⟨2014, 1, 9, 1, 2, 3, 0⟩ =
          Period.start .day (Period.step .day ⟨2014, 1, 9, 1, 2, 3, 0⟩))) :=
  ⟨⟨by decide, by decide,
      (C6_end_of_boundary .day ⟨2014, 1, 9, 0, 0, 0, 0⟩ (by decide)).1
        (by decide)⟩,
    ⟨by decide, by decide,
      (C6_end_of_boundary .day ⟨2014, 1, 9, 1, 2, 3, 0⟩ (by decide)).2
        (by decide)⟩⟩

/-- C7: for every period and valid pair `s < e`, `P.range s e` is a
finite list of buckets `(b, b + one step)`; every bucket start lies
strictly before `P.end e`; the first bucket starts at `P.start s`;
consecutive buckets abut and bucket starts strictly increase (ascending
time, non-overlapping). Concretely, `Week.range(2021-01-04, 2021-01-18)`
is exactly the two buckets (Jan 4, Jan 11), (Jan 11, Jan 18). -/
theorem C7_range_coverage (p : Period) (s e : Datetime) (hs : Valid s)
    (he : Valid e) (hlt : enc s < enc e) :
    (∀ x ∈ p.range s e, x.2 = p.step x.1 ∧ enc x.1 < enc (p.stop e)) ∧
    (p.range s e).head? = some (p.start s, p.step (p.start s)) ∧
    (∀ i (hi : i + 1 < (p.range s e).length),
      ((p.range s e).get ⟨i + 1, hi⟩).1 =
        ((p.range s e).get ⟨i, by omega⟩).2 ∧
      enc ((p.range s e).get ⟨i, by omega⟩).1 <
        enc ((p.range s e).get ⟨i + 1, hi⟩).1) ∧
    Period.range .week ⟨2021, 1, 4, 0, 0, 0, 0⟩ ⟨2021, 1, 18, 0, 0, 0, 0⟩ =
      [(⟨2021, 1, 4, 0, 0, 0, 0⟩, ⟨2021, 1, 11, 0, 0, 0, 0⟩),
       (⟨2021, 1, 11, 0, 0, 0, 0⟩, ⟨2021, 1, 18, 0, 0, 0, 0⟩)] := by
  obtain ⟨hmem, _, hhead⟩ := range_spec p hs he
  exact ⟨fun x hx => ⟨(hmem x hx).1, (hmem x hx).2.2.2⟩, hhead hlt,
    fun i hi => range_adjacent p hs he hi, by decide⟩

theorem C7_range_coverage_witness :
    Valid ⟨2021, 1, 4, 0, 0, 0, 0⟩ ∧ Valid ⟨2021, 1, 18, 0, 0, 0, 0⟩ ∧
    enc ⟨2021, 1, 4, 0, 0, 0, 0⟩ < enc ⟨2021, 1, 18, 0, 0, 0, 0⟩ ∧
    (Period.range .week ⟨2021, 1, 4, 0, 0, 0, 0⟩
        ⟨2021, 1, 18, 0, 0, 0, 0⟩).head? =
      some (Period.start .week ⟨2021, 1, 4, 0, 0, 0, 0⟩,
        Period.step .week (Period.start .week ⟨2021, 1, 4, 0, 0, 0, 0⟩)) :=
  ⟨by decide, by decide, by decide,
    (C7_range_coverage .week ⟨2021, 1, 4, 0, 0, 0, 0⟩
      ⟨2021, 1, 18, 0, 0, 0, 0⟩ (by decide) (by decide) (by decide)).2.1⟩

lemma stepN_zero (p : Period) {t : Datetime} (h : Valid t) :
    p.stepN t 0 = t := by
  cases p with
  | hour => rfl
  | day => rfl
  | week => rfl
  | month =>
    show addMonths t 0 = t
    obtain ⟨y, m, d, hh, mi, s, us⟩ := t
    obtain ⟨h1, h2, h3, h4, h5, h6, h7, h8, h9⟩ := h
    unfold addMonths
    dsimp only at *
    simp only [Nat.add_zero]
    rw [show (m - 1) / 12 = 0 by omega, show (m - 1) % 12 + 1 = m by omega]
    simp only [Nat.add_zero]
    rw [min_eq_left h5]
  | quarter =>
    show addMonths t (3 * 0) = t
    obtain ⟨y, m, d, hh, mi, s, us⟩ := t
    obtain ⟨h1, h2, h3, h4, h5, h6, h7, h8, h9⟩ := h
    unfold addMonths
    dsimp only at *
    simp only [Nat.mul_zero, Nat.add_zero]
    rw [show (m - 1) / 12 = 0 by omega, show (m - 1) % 12 + 1 = m by omega]
    simp only [Nat.add_zero]
    rw [min_eq_left h5]
  | year =>
    show addYears t 0 = t
    obtain ⟨y, m, d, hh, mi, s, us⟩ := t
    obtain ⟨h1, h2, h3, h4, h5, h6, h7, h8, h9⟩ := h
    unfold addYears
    dsimp only at *
    simp only [Nat.add_zero]
    rw [min_eq_left h5]

/-- C3: with a date and a non-zero delta, `Query` construction resolves
the window as: `delta > 0` anchors at `period.end(date)` and extends
forwards by `delta` steps; `delta < 0` anchors at `period.start(date)`
and extends backwards. The three concrete `Query.create` day-period
examples of the claim follow. -/
theorem C3_delta_window (p : Period) (d : Datetime) (n : Int)
    (now : Datetime) :
    (0 < n → calculateStartAndEnd p (some d) n now =
      (p.stop d, p.stepN (p.stop d) n.toNat)) ∧
    (n < 0 → calculateStartAndEnd p (some d) n now =
      (p.stepBackN (p.start d) (-n).toNat, p.start d)) ∧
    Query.create none none (some ⟨2014, 1, 9, 0, 0, 0, 0⟩) (some 3)
        (some .day) none [] none none none [] ⟨2020, 1, 1, 0, 0, 0, 0⟩ =
      some ⟨some ⟨2014, 1, 9, 0, 0, 0, 0⟩, some ⟨2014, 1, 12, 0, 0, 0, 0⟩,
        some ⟨2014, 1, 9, 0, 0, 0, 0⟩, some 3, some .day, none, [], none,
        none, none, []⟩ ∧
    Query.create none none (some ⟨2014, 1, 9, 0, 0, 0, 0⟩) (some (-3))
        (some .day) none [] none none none [] ⟨2020, 1, 1, 0, 0, 0, 0⟩ =
      some ⟨some ⟨2014, 1, 6, 0, 0, 0, 0⟩, some ⟨2014, 1, 9, 0, 0, 0, 0⟩,
        some ⟨2014, 1, 9, 0, 0, 0, 0⟩, some (-3), some .day, none, [], none,
        none, none, []⟩ ∧
    Query.create none none (some ⟨2014, 1, 9, 1, 2, 3, 0⟩) (some 3)
        (some .day) none [] none none none [] ⟨2020, 1, 1, 0, 0, 0, 0⟩ =
      some ⟨some ⟨2014, 1, 10, 0, 0, 0, 0⟩, some ⟨2014, 1, 13, 0, 0, 0, 0⟩,
        some ⟨2014, 1, 9, 1, 2, 3, 0⟩, some 3, some .day, none, [], none,
        none, none, []⟩ := by
  refine ⟨?_, ?_, by decide, by decide, by decide⟩
  · intro hn
    unfold calculateStartAndEnd deltaTimes
    rw [if_pos hn]
    dsimp only
    rw [if_pos (le_of_lt hn)]
    simp only [Option.getD_some]
  · intro hn
    unfold calculateStartAndEnd deltaTimes
    rw [if_neg (by omega : ¬ n > 0)]
    dsimp only
    rw [if_neg (by omega : ¬ (0:Int) ≤ n)]
    simp only [Option.getD_some]

theorem C3_delta_window_witness :
    (0 : Int) < 3 ∧
    calculateStartAndEnd .day (some ⟨2014, 1, 9, 0, 0, 0, 0⟩) 3
        ⟨2020, 1, 1, 0, 0, 0, 0⟩ =
      (Period.stop .day ⟨2014, 1, 9, 0, 0, 0, 0⟩,
        Period.stepN .day (Period.stop .day ⟨2014, 1, 9, 0, 0, 0, 0⟩)
          (Int.toNat 3)) :=
  ⟨by decide,
    (C3_delta_window .day ⟨2014, 1, 9, 0, 0, 0, 0⟩ 3
      ⟨2020, 1, 1, 0, 0, 0, 0⟩).1 (by decide)⟩

/-- C4 counterexample: with `delta = 0` (and a day period and a date) the
supplied `start_at` is NOT taken verbatim — the code recomputes the
window, because `0 is not None`. -/
theorem C4_counterexample :
    (Query.create (some ⟨2020, 5, 5, 0, 0, 0, 0⟩)
        (some ⟨2020, 6, 6, 0, 0, 0, 0⟩) (some ⟨2014, 1, 9, 0, 0, 0, 0⟩)
        (some 0) (some .day) none [] none none none []
        ⟨2020, 1, 1, 0, 0, 0, 0⟩).map Query.start_at ≠
      some (some ⟨2020, 5, 5, 0, 0, 0, 0⟩) := by decide

/-- C4 (amended): only an absent (`None`) delta leaves the supplied
`start_at`/`end_at` verbatim (possibly both null); `delta = 0` instead
collapses the window to `period.start(date or now)` at both ends. -/
theorem C4_amended (sa ea : Option Datetime) (date : Option Datetime)
    (per : Option Period) (sb : Option Bool) (fb : List (String × Value))
    (gb : Option String) (so : Option (String × String)) (li : Option Nat)
    (co : List (String × String)) (now : Datetime) :
    Query.create sa ea date none per sb fb gb so li co now =
      some ⟨sa, ea, date, none, per, sb, fb, gb, so, li, co⟩ ∧
    (∀ p : Period, Valid (date.getD now) →
      Query.create sa ea date (some 0) (some p) sb fb gb so li co now =
        some ⟨some (p.start (date.getD now)),
          some (p.start (date.getD now)), date, some 0, some p, sb, fb, gb,
          so, li, co⟩) := by
  refine ⟨rfl, ?_⟩
  intro p hv
  have hstart := (start_spec p hv).1
  show some _ = some _
  unfold calculateStartAndEnd deltaTimes
  rw [if_neg (by omega : ¬ (0:Int) > 0)]
  dsimp only
  rw [if_pos (by omega : (0:Int) ≤ (0:Int))]
  rw [show (0 : Int).toNat = 0 from rfl, stepN_zero p hstart]

theorem C4_amended_witness :
    Valid ((some ⟨2014, 1, 9, 0, 0, 0, 0⟩ : Option Datetime).getD
      ⟨2020, 1, 1, 0, 0, 0, 0⟩) ∧
    Query.create (some ⟨2020, 5, 5, 0, 0, 0, 0⟩)
        (some ⟨2020, 6, 6, 0, 0, 0, 0⟩) (some ⟨2014, 1, 9, 0, 0, 0, 0⟩)
        (some 0) (some .day) none [] none none none []
        ⟨2020, 1, 1, 0, 0, 0, 0⟩ =
      some ⟨some (Period.start .day ((some ⟨2014, 1, 9, 0, 0, 0, 0⟩ :
          Option Datetime).getD ⟨2020, 1, 1, 0, 0, 0, 0⟩)),
        some (Period.start .day ((some ⟨2014, 1, 9, 0, 0, 0, 0⟩ :
          Option Datetime).getD ⟨2020, 1, 1, 0, 0, 0, 0⟩)),
        some ⟨2014, 1, 9, 0, 0, 0, 0⟩, some 0, some .day, none, [], none,
        none, none, []⟩ :=
  ⟨by decide,
    (C4_amended (some ⟨2020, 5, 5, 0, 0, 0, 0⟩) (some ⟨2020, 6, 6, 0, 0, 0, 0⟩)
      (some ⟨2014, 1, 9, 0, 0, 0, 0⟩) (some .day) none [] none none none []
      ⟨2020, 1, 1, 0, 0, 0, 0⟩).2 .day (by decide)⟩

lemma find?_of_filter_singleton {α : Type} {l : List α} {p : α → Bool}
    {a : α} (h : l.filter p = [a]) : l.find? p = some a := by
  induction l with
  | nil => simp at h
  | cons x tl ih =>
    by_cases hp : p x = true
    · rw [List.filter_cons_of_pos hp] at h
      injection h with h1 _
      subst h1
      simp [List.find?_cons, hp]
    · rw [List.filter_cons_of_neg hp] at h
      have hp' : p x = false := by simpa using hp
      simp only [List.find?_cons, hp']
      exact ih h

/-- C2: for every period, bounded valid window and raw rows with
pairwise-distinct period-start indices (epoch-second comparison), the
period fill returns exactly one row per expected bucket, in bucket order:
the raw row whose start index matches the bucket start, else a synthesized
row merging the defaults with the bucket's `_start_at`/`_end_at`. The
3-week example with weeks 1 and 3 present yields exactly 3 entries with
week 2 synthesized. -/
theorem C2_period_fill (p : Period) (s e : Datetime) (data : List Row)
    (default : Row) (hs : Valid s) (he : Valid e)
    (hdist : List.Pairwise
      (fun a b : Row => startAtIndex a ≠ startAtIndex b) data) :
    (timeseries s e p data default).length = (p.range s e).length ∧
    (∀ i (hi : i < (p.range s e).length)
        (ho : i < (timeseries s e p data default).length),
      (timeseries s e p data default).get ⟨i, ho⟩ =
        match data.find? (fun r =>
            startAtIndex r == timeToIndex ((p.range s e).get ⟨i, hi⟩).1) with
        | some r => r
        | none => merge default
            (periodLimits ((p.range s e).get ⟨i, hi⟩).1
              ((p.range s e).get ⟨i, hi⟩).2)) ∧
    timeseries ⟨2021, 1, 4, 0, 0, 0, 0⟩ ⟨2021, 1, 25, 0, 0, 0, 0⟩ .week
      [[("_start_at", Value.dt ⟨2021, 1, 4, 0, 0, 0, 0⟩),
        ("_end_at", Value.dt ⟨2021, 1, 11, 0, 0, 0, 0⟩),
        ("value", Value.int 10)],
       [("_start_at", Value.dt ⟨2021, 1, 18, 0, 0, 0, 0⟩),
        ("_end_at", Value.dt ⟨2021, 1, 25, 0, 0, 0, 0⟩),
        ("value", Value.int 30)]]
      [("value", Value.int 0)] =
    [[("_start_at", Value.dt ⟨2021, 1, 4, 0, 0, 0, 0⟩),
      ("_end_at", Value.dt ⟨2021, 1, 11, 0, 0, 0, 0⟩),
      ("value", Value.int 10)],
     [("value", Value.int 0),
      ("_start_at", Value.dt ⟨2021, 1, 11, 0, 0, 0, 0⟩),
      ("_end_at", Value.dt ⟨2021, 1, 18, 0, 0, 0, 0⟩)],
     [("_start_at", Value.dt ⟨2021, 1, 18, 0, 0, 0, 0⟩),
      ("_end_at", Value.dt ⟨2021, 1, 25, 0, 0, 0, 0⟩),
      ("value", Value.int 30)]] := by
  have hmap := timeseries_eq_map p s e data default hdist
  refine ⟨by rw [hmap, List.length_map], ?_, by decide⟩
  intro i hi ho
  rw [List.get_of_eq hmap ⟨i, ho⟩, List.get_map]
  rfl

theorem C2_period_fill_witness :
    Valid ⟨2021, 1, 4, 0, 0, 0, 0⟩ ∧ Valid ⟨2021, 1, 25, 0, 0, 0, 0⟩ ∧
    (timeseries ⟨2021, 1, 4, 0, 0, 0, 0⟩ ⟨2021, 1, 25, 0, 0, 0, 0⟩ .week
      [[("_start_at", Value.dt ⟨2021, 1, 4, 0, 0, 0, 0⟩),
        ("_end_at", Value.dt ⟨2021, 1, 11, 0, 0, 0, 0⟩),
        ("value", Value.int 10)],
       [("_start_at", Value.dt ⟨2021, 1, 18, 0, 0, 0, 0⟩),
        ("_end_at", Value.dt ⟨2021, 1, 25, 0, 0, 0, 0⟩),
        ("value", Value.int 30)]]
      [("value", Value.int 0)]).length =
    (Period.range .week ⟨2021, 1, 4, 0, 0, 0, 0⟩
      ⟨2021, 1, 25, 0, 0, 0, 0⟩).length :=
  ⟨by decide, by decide,
    (C2_period_fill .week ⟨2021, 1, 4, 0, 0, 0, 0⟩ ⟨2021, 1, 25, 0, 0, 0, 0⟩
      [[("_start_at", Value.dt ⟨2021, 1, 4, 0, 0, 0, 0⟩),
        ("_end_at", Value.dt ⟨2021, 1, 11, 0, 0, 0, 0⟩),
        ("value", Value.int 10)],
       [("_start_at", Value.dt ⟨2021, 1, 18, 0, 0, 0, 0⟩),
        ("_end_at", Value.dt ⟨2021, 1, 25, 0, 0, 0, 0⟩),
        ("value", Value.int 30)]]
      [("value", Value.int 0)] (by decide) (by decide) (by decide)).1⟩

lemma specLookup_append (s1 s2 : List (String × MongoCond)) (k : String) :
    specLookup (s1 ++ s2) k = (specLookup s2 k).or (specLookup s1 k) := by
  unfold specLookup
  rw [List.filter_append, List.getLast?_append]
  cases (List.filter (fun kv => kv.1 == k) s2).getLast? <;> simp

lemma specLookup_eq_map (fb : List (String × Value)) (k : String) :
    specLookup (fb.map (fun kv => (kv.1, MongoCond.eq kv.2))) k =
      (fb.filter (fun kv => kv.1 == k)).getLast?.map
        (fun kv => MongoCond.eq kv.2) := by
  unfold specLookup
  rw [List.filter_map, List.getLast?_map, Option.map_map]
  rfl

/-- C9 counterexample: duplicate `filter_by` keys are NOT all applied
conjunctively. With `filter_by = [("a", 1), ("a", 2)]` the translated
filter keeps only the last binding (`dict` collapses duplicates), so a
record with `a = 2` passes the translated filter even though the pair
`("a", 1)` — which that record fails — is in `filter_by`. -/
theorem C9_counterexample :
    (("a", Value.int 1) ∈ (Query.mk none none none none none none
        [("a", Value.int 1), ("a", Value.int 2)] none none none
        []).filter_by) ∧
    specMatches [("a", Value.int 2)]
      (get_mongo_spec (Query.mk none none none none none none
        [("a", Value.int 1), ("a", Value.int 2)] none none none [])) =
      true ∧
    condMatches [("a", Value.int 2)] "a"
      (MongoCond.eq (Value.int 1)) = false := by
  decide

/-- C9 (amended): the translated filter is a dict, so for each key only
the LAST `filter_by` binding of that key survives (duplicates collapse);
the `_timestamp` key carries the time range (`$gte start_at`, `$lt
end_at`, each bound omitted when null) whenever at least one bound is
present, overriding any `_timestamp` binding from `filter_by`. -/
theorem C9_amended (q : Query) (k : String) :
    specLookup (get_mongo_spec q) k =
      if k = "_timestamp" ∧ (q.start_at.isSome ∨ q.end_at.isSome) then
        some (MongoCond.timeRange q.start_at q.end_at)
      else (q.filter_by.filter (fun kv => kv.1 == k)).getLast?.map
        (fun kv => MongoCond.eq kv.2) := by
  unfold get_mongo_spec
  rw [specLookup_append, specLookup_eq_map]
  unfold time_range_to_mongo_query
  by_cases hp : q.start_at.isSome ∨ q.end_at.isSome
  · rw [if_pos hp]
    by_cases hk : k = "_timestamp"
    · rw [if_pos ⟨hk, hp⟩]
      subst hk
      simp [specLookup, List.filter_cons]
    · rw [if_neg (fun h => hk h.1)]
      have hb : (("_timestamp" : String) == k) = false :=
        beq_eq_false_iff_ne.mpr (fun h => hk h.symm)
      simp [specLookup, List.filter_cons, hb]
  · rw [if_neg hp, if_neg (fun h => hp h.2)]
    simp [specLookup]

lemma specLookup_neNull_map (ks : List String) (k : String) :
    specLookup (ks.map (fun g => (g, MongoCond.neNull))) k =
      if k ∈ ks then some MongoCond.neNull else none := by
  induction ks using List.reverseRecOn with
  | nil => rfl
  | append_singleton l x ih =>
    rw [List.map_append, specLookup_append]
    simp only [List.map_cons, List.map_nil]
    by_cases hx : x = k
    · subst hx
      have h1 : specLookup [(x, MongoCond.neNull)] x =
          some MongoCond.neNull := by
        simp [specLookup, List.filter_cons]
      rw [h1, if_pos (List.mem_append_right _ (List.mem_singleton.mpr rfl))]
      rfl
    · have hb : ((x : String) == k) = false :=
        beq_eq_false_iff_ne.mpr hx
      have h1 : specLookup [(x, MongoCond.neNull)] k = none := by
        simp [specLookup, List.filter_cons, hb]
      rw [h1, Option.none_or, ih]
      by_cases hk : k ∈ l
      · rw [if_pos hk, if_pos (List.mem_append_left _ hk)]
      · rw [if_neg hk, if_neg (fun hmem =>
          (List.mem_append.mp hmem).elim hk
            (fun h => hx (List.mem_singleton.mp h).symm))]

lemma build_group_condition_lookup (keys : List String)
    (spec : List (String × MongoCond)) (k : String) :
    specLookup (build_group_condition keys spec) k =
      match specLookup spec k with
      | some c => some c
      | none =>
        if k ∈ keys.filter (fun g => (specLookup spec g).isNone) then
          some MongoCond.neNull
        else none := by
  unfold build_group_condition
  rw [specLookup_append, specLookup_neNull_map]
  cases h : specLookup spec k with
  | some c =>
    have hk : k ∉ keys.filter (fun g => (specLookup spec g).isNone) := by
      intro hmem
      have h2 := (List.mem_filter.mp hmem).2
      rw [h] at h2
      simp at h2
    rw [if_neg hk, Option.none_or]
  | none =>
    by_cases hk : k ∈ keys.filter (fun g => (specLookup spec g).isNone)
    · rw [if_pos hk]
      rfl
    · rw [if_neg hk]
      rfl

lemma mem_keys_build_group_condition (keys : List String)
    (spec : List (String × MongoCond)) (k : String) (hk : k ∈ keys)
    (h : specLookup spec k = none) :
    k ∈ (build_group_condition keys spec).map Prod.fst := by
  unfold build_group_condition
  rw [List.map_append]
  apply List.mem_append_right
  have hmem : k ∈ keys.filter (fun g => (specLookup spec g).isNone) :=
    List.mem_filter.mpr ⟨hk, by rw [h]; rfl⟩
  rw [List.map_map]
  exact List.mem_map.mpr ⟨k, hmem, rfl⟩

lemma specMatches_false_of_lookup (r : Row)
    (cond : List (String × MongoCond)) (k : String)
    (hkmem : k ∈ cond.map Prod.fst)
    (hl : specLookup cond k = some MongoCond.neNull)
    (hr : getValue r k = none ∨ getValue r k = some Value.null) :
    specMatches r cond = false := by
  unfold specMatches
  apply List.all_eq_false.mpr
  refine ⟨k, mem_dedupFirst.mpr hkmem, ?_⟩
  rw [hl]
  rcases hr with h | h <;> simp [condMatches, h]

/-- C10: for a group or period query, every grouping key (from
`get_group_keys`) that the mongo spec does not already constrain gets a
`$ne None` constraint in the group condition (while already-constrained
keys keep their spec binding), and a record lacking that key — or holding
a null there — fails the resulting condition, so it is excluded from
grouped results rather than forming a null-keyed group. -/
theorem C10_group_condition (q : Query) (hq : is_group_query q = true)
    (k : String) (hk : k ∈ get_group_keys q) :
    (∀ c, specLookup (get_mongo_spec q) k = some c →
      specLookup (build_group_condition (get_group_keys q)
        (get_mongo_spec q)) k = some c) ∧
    (specLookup (get_mongo_spec q) k = none →
      specLookup (build_group_condition (get_group_keys q)
        (get_mongo_spec q)) k = some MongoCond.neNull ∧
      ∀ r : Row, getValue r k = none ∨ getValue r k = some Value.null →
        specMatches r (build_group_condition (get_group_keys q)
          (get_mongo_spec q)) = false) := by
  constructor
  · intro c hc
    rw [build_group_condition_lookup, hc]
  · intro hn
    have hlook : specLookup (build_group_condition (get_group_keys q)
        (get_mongo_spec q)) k = some MongoCond.neNull := by
      rw [build_group_condition_lookup, hn]
      show (if k ∈ (get_group_keys q).filter
          (fun g => (specLookup (get_mongo_spec q) g).isNone) then
        some MongoCond.neNull else none) = some MongoCond.neNull
      rw [if_pos (List.mem_filter.mpr ⟨hk, by rw [hn]; rfl⟩)]
    refine ⟨hlook, fun r hr => specMatches_false_of_lookup r _ k ?_ hlook hr⟩
    exact mem_keys_build_group_condition _ _ _ hk hn

theorem C10_group_condition_witness :
    is_group_query (Query.mk none none none none none none []
      (some "foo") none none []) = true ∧
    "foo" ∈ get_group_keys (Query.mk none none none none none none []
      (some "foo") none none []) ∧
    specMatches [("bar", Value.int 1)]
      (build_group_condition
        (get_group_keys (Query.mk none none none none none none []
          (some "foo") none none []))
        (get_mongo_spec (Query.mk none none none none none none []
          (some "foo") none none []))) = false :=
  ⟨by decide, by decide,
    ((C10_group_condition
        (Query.mk none none none none none none [] (some "foo")
          none none [])
        (by decide) "foo" (by decide)).2 (by decide)).2
      [("bar", Value.int 1)] (Or.inl (by decide))⟩

/-- With exactly one raw row per expected bucket, each carrying the
bucket's `_start_at`, the period fill returns the data unchanged. -/
lemma timeseries_noop (p : Period) (s e : Datetime) (data : List Row)
    (default : Row) (hs : Valid s) (he : Valid e)
    (hlen : data.length = (p.range s e).length)
    (hkeys : ∀ i (hi : i < data.length) (hi2 : i < (p.range s e).length),
      getValue (data.get ⟨i, hi⟩) "_start_at" =
        some (Value.dt ((p.range s e).get ⟨i, hi2⟩).1)) :
    timeseries s e p data default = data := by
  have hidx : ∀ i (hi : i < data.length) (hi2 : i < (p.range s e).length),
      startAtIndex (data.get ⟨i, hi⟩) =
        timeToIndex ((p.range s e).get ⟨i, hi2⟩).1 := by
    intro i hi hi2
    unfold startAtIndex getD
    rw [hkeys i hi hi2]
    rfl
  have haligned : ∀ i (hi2 : i < (p.range s e).length),
      HourAligned ((p.range s e).get ⟨i, hi2⟩).1 :=
    fun i hi2 =>
      ((range_spec p hs he).1 _ (List.get_mem _ _ hi2)).2.2.1
  have hmono : ∀ i j (hi2 : i < (p.range s e).length)
      (hj2 : j < (p.range s e).length), i < j →
      timeToIndex ((p.range s e).get ⟨i, hi2⟩).1 <
        timeToIndex ((p.range s e).get ⟨j, hj2⟩).1 := by
    intro i j hi2 hj2 hij
    have henc := List.pairwise_iff_get.mp (range_pairwise_encLt p hs he)
      ⟨i, hi2⟩ ⟨j, hj2⟩ hij
    rw [enc_eq_timeToIndex_of_aligned (haligned i hi2),
      enc_eq_timeToIndex_of_aligned (haligned j hj2)] at henc
    omega
  have hdist : List.Pairwise
      (fun a b : Row => startAtIndex a ≠ startAtIndex b) data := by
    rw [List.pairwise_iff_get]
    intro i j hij
    have hi2 : (i : Nat) < (p.range s e).length := by
      rw [← hlen]; exact i.2
    have hj2 : (j : Nat) < (p.range s e).length := by
      rw [← hlen]; exact j.2
    rw [hidx i i.2 hi2, hidx j j.2 hj2]
    exact Nat.ne_of_lt (hmono i j hi2 hj2 hij)
  rw [timeseries_eq_map p s e data default hdist]
  symm
  apply List.ext_get (by rw [List.length_map, hlen])
  intro n h2 h1
  rw [List.get_map]
  have hn2 : n < (p.range s e).length := by rw [← hlen]; exact h2
  have hfilter : data.filter (fun r => startAtIndex r ==
      timeToIndex ((p.range s e).get ⟨n, hn2⟩).1) = [data.get ⟨n, h2⟩] := by
    apply filter_eq_singleton_of_unique data _ n h2
    · rw [hidx n h2 hn2]
      exact beq_self_eq_true _
    · intro j hj hne
      have hj2 : j < (p.range s e).length := by rw [← hlen]; exact hj
      rw [hidx j hj hj2]
      simp only [beq_eq_false_iff_ne, ne_eq]
      rcases Nat.lt_or_ge j n with h | h
      · exact Nat.ne_of_lt (hmono j n hj2 hn2 h)
      · exact (Nat.ne_of_lt (hmono n j hn2 hj2 (by omega))).symm
  have hfind := find?_of_filter_singleton hfilter
  show data.get ⟨n, h2⟩ = periodFillCell data default ((p.range s e).get ⟨n, hn2⟩)
  unfold periodFillCell
  rw [hfind]

/-- With exactly one raw row per (bucket, permutation) cell, laid out
bucket-major and carrying the matching composite identity keys, the
grouped fill returns the data unchanged. -/
lemma grouped_fill_noop (p : Period) (s e : Datetime) (gb : List String)
    (data : List Row) (default : Row) (hs : Valid s) (he : Valid e)
    (hgb : ∀ k ∈ gb, k ≠ "_start_at" ∧ k ≠ "_end_at")
    (hlen : data.length =
      (p.range s e).length * (allGroupByPermutations data gb).length)
    (hcells : ∀ bi (hbi : bi < (p.range s e).length)
        pi (hpi : pi < (allGroupByPermutations data gb).length)
        (hd : bi * (allGroupByPermutations data gb).length + pi <
          data.length),
      identKey gb (data.get ⟨bi * (allGroupByPermutations data gb).length
          + pi, hd⟩) =
        (Value.dt ((p.range s e).get ⟨bi, hbi⟩).1,
         Value.dt ((p.range s e).get ⟨bi, hbi⟩).2,
         gb.map (getD
           ((allGroupByPermutations data gb).get ⟨pi, hpi⟩)))) :
    fill_group_by_permutations s e p data default gb = data := by
  rcases Nat.eq_zero_or_pos (allGroupByPermutations data gb).length
    with hK0 | hKpos
  · have hd0 : data = [] := List.eq_nil_of_length_eq_zero
      (by rw [hlen, hK0, Nat.mul_zero])
    have hp0 : allGroupByPermutations data gb = [] :=
      List.eq_nil_of_length_eq_zero hK0
    unfold fill_group_by_permutations
    rw [hp0]
    simp [hd0]
  · have hmono : ∀ i j (hi2 : i < (p.range s e).length)
        (hj2 : j < (p.range s e).length), i < j →
        enc ((p.range s e).get ⟨i, hi2⟩).1 <
          enc ((p.range s e).get ⟨j, hj2⟩).1 :=
      fun i j hi2 hj2 hij =>
        List.pairwise_iff_get.mp (range_pairwise_encLt p hs he)
          ⟨i, hi2⟩ ⟨j, hj2⟩ hij
    have hbne : ∀ i j (hi2 : i < (p.range s e).length)
        (hj2 : j < (p.range s e).length), i ≠ j →
        ((p.range s e).get ⟨i, hi2⟩).1 ≠
          ((p.range s e).get ⟨j, hj2⟩).1 := by
      intro i j hi2 hj2 hne heq
      rcases Nat.lt_or_ge i j with h | h
      · have h2 := hmono i j hi2 hj2 h
        rw [heq] at h2
        exact lt_irrefl _ h2
      · have h2 := hmono j i hj2 hi2 (by omega)
        rw [heq] at h2
        exact lt_irrefl _ h2
    have hpne : ∀ i j
        (hi2 : i < (allGroupByPermutations data gb).length)
        (hj2 : j < (allGroupByPermutations data gb).length), i ≠ j →
        gb.map (getD ((allGroupByPermutations data gb).get ⟨i, hi2⟩)) ≠
          gb.map (getD ((allGroupByPermutations data gb).get ⟨j, hj2⟩)) := by
      intro i j hi2 hj2 hne
      have hpw := permsOver_distinct_valuations data gb
      rcases Nat.lt_or_ge i j with h | h
      · exact List.pairwise_iff_get.mp hpw ⟨i, hi2⟩ ⟨j, hj2⟩ h
      · exact (List.pairwise_iff_get.mp hpw ⟨j, hj2⟩ ⟨i, hi2⟩
          (Fin.mk_lt_mk.mpr (by omega))).symm
    have hdecomp : ∀ m,
        m / (allGroupByPermutations data gb).length *
          (allGroupByPermutations data gb).length +
          m % (allGroupByPermutations data gb).length = m := by
      intro m
      rw [Nat.mul_comm]
      exact Nat.div_add_mod m _
    have hbound : ∀ m, m < data.length →
        m / (allGroupByPermutations data gb).length <
          (p.range s e).length ∧
        m % (allGroupByPermutations data gb).length <
          (allGroupByPermutations data gb).length := by
      intro m hm
      refine ⟨(Nat.div_lt_iff_lt_mul hKpos).mpr ?_, Nat.mod_lt _ hKpos⟩
      rw [← hlen]
      exact hm
    have hdistinct : ∀ m n (hm : m < data.length) (hn : n < data.length),
        m ≠ n →
        identKey gb (data.get ⟨m, hm⟩) ≠
          identKey gb (data.get ⟨n, hn⟩) := by
      intro m n hm hn hne
      have hbm := hbound m hm
      have hbn := hbound n hn
      have hdm : m / (allGroupByPermutations data gb).length *
          (allGroupByPermutations data gb).length +
          m % (allGroupByPermutations data gb).length < data.length := by
        rw [hdecomp m]; exact hm
      have hdn : n / (allGroupByPermutations data gb).length *
          (allGroupByPermutations data gb).length +
          n % (allGroupByPermutations data gb).length < data.length := by
        rw [hdecomp n]; exact hn
      have h1 := hcells _ hbm.1 _ hbm.2 hdm
      have h2 := hcells _ hbn.1 _ hbn.2 hdn
      have hgm : data.get ⟨_, hdm⟩ = data.get ⟨m, hm⟩ :=
        congrArg data.get (Fin.ext (hdecomp m))
      have hgn : data.get ⟨_, hdn⟩ = data.get ⟨n, hn⟩ :=
        congrArg data.get (Fin.ext (hdecomp n))
      rw [hgm] at h1
      rw [hgn] at h2
      rw [h1, h2]
      by_cases hbi : m / (allGroupByPermutations data gb).length =
          n / (allGroupByPermutations data gb).length
      · have hpi : m % (allGroupByPermutations data gb).length ≠
            n % (allGroupByPermutations data gb).length := by
          intro hc
          apply hne
          have e1 := hdecomp m
          have e2 := hdecomp n
          rw [hbi, hc] at e1
          omega
        intro heq
        simp only [Prod.mk.injEq] at heq
        exact hpne _ _ hbm.2 hbn.2 hpi heq.2.2
      · intro heq
        simp only [Prod.mk.injEq] at heq
        have he1 := heq.1
        injection he1 with hb1
        exact hbne _ _ hbm.1 hbn.1 hbi hb1
    have hcell_eq : ∀ bi (hbi : bi < (p.range s e).length)
        pi (hpi : pi < (allGroupByPermutations data gb).length)
        (hd : bi * (allGroupByPermutations data gb).length + pi <
          data.length),
        fillCell gb data default ((p.range s e).get ⟨bi, hbi⟩).1
          ((p.range s e).get ⟨bi, hbi⟩).2
          ((allGroupByPermutations data gb).get ⟨pi, hpi⟩) =
        data.get ⟨bi * (allGroupByPermutations data gb).length + pi,
          hd⟩ := by
      intro bi hbi pi hpi hd
      unfold fillCell
      rw [permKey_stamped gb _ _ _ hgb]
      have hfilter : data.filter (fun d => identKey gb d ==
          (Value.dt ((p.range s e).get ⟨bi, hbi⟩).1,
           Value.dt ((p.range s e).get ⟨bi, hbi⟩).2,
           gb.map (getD
             ((allGroupByPermutations data gb).get ⟨pi, hpi⟩)))) =
          [data.get ⟨bi * (allGroupByPermutations data gb).length + pi,
            hd⟩] := by
        apply filter_eq_singleton_of_unique data _
          (bi * (allGroupByPermutations data gb).length + pi) hd
        · rw [hcells bi hbi pi hpi hd]
          exact beq_self_eq_true _
        · intro j hj hne
          have hne2 := hdistinct j _ hj hd hne
          rw [hcells bi hbi pi hpi hd] at hne2
          exact beq_eq_false_iff_ne.mpr hne2
      unfold lookupDatum
      rw [hfilter]
      rfl
    unfold fill_group_by_permutations
    have hK : ∀ b ∈ p.range s e,
        ((allGroupByPermutations data gb).map
          (fillCell gb data default b.1 b.2)).length =
        (allGroupByPermutations data gb).length :=
      fun b _ => List.length_map _ _
    obtain ⟨hflen, hfget⟩ := flatMap_fixed_get (p.range s e) _ _ hK
    apply List.ext_get (by rw [hflen, ← hlen])
    intro n h1 h2
    have hb := hbound n h2
    have hd' : n / (allGroupByPermutations data gb).length *
        (allGroupByPermutations data gb).length +
        n % (allGroupByPermutations data gb).length < data.length := by
      rw [hdecomp n]; exact h2
    have h3 := hfget _ _ hb.1 hb.2
    rw [hdecomp n] at h3
    rw [List.getElem?_eq_getElem h1] at h3
    rw [List.getElem?_map, List.getElem?_eq_getElem hb.2] at h3
    simp only [Option.map_some'] at h3
    have h4 := Option.some.inj h3
    exact h4.trans ((hcell_eq _ hb.1 _ hb.2 hd').trans
      (congrArg data.get (Fin.ext (hdecomp n))))

/-- C8: both gap-filling functions are a no-op on complete data, and
re-running fill on the output yields the same result. (a) The period
fill, fed exactly one row per expected bucket, each carrying that
bucket's `_start_at`, returns the data unchanged (same rows, same order)
and refilling the output changes nothing. (b) The grouped fill, fed
exactly one row per (bucket, permutation) cell in bucket-major
permutation-minor order, each carrying the cell's composite identity
key, returns the data unchanged and refilling the output changes
nothing. -/
theorem C8_fill_noop (p : Period) (s e : Datetime) (default : Row)
    (hs : Valid s) (he : Valid e) :
    (∀ data : List Row,
      data.length = (p.range s e).length →
      (∀ i (hi : i < data.length) (hi2 : i < (p.range s e).length),
        getValue (data.get ⟨i, hi⟩) "_start_at" =
          some (Value.dt ((p.range s e).get ⟨i, hi2⟩).1)) →
      timeseries s e p data default = data ∧
      timeseries s e p (timeseries s e p data default) default =
        timeseries s e p data default) ∧
    (∀ (gb : List String) (data : List Row),
      (∀ k ∈ gb, k ≠ "_start_at" ∧ k ≠ "_end_at") →
      data.length =
        (p.range s e).length * (allGroupByPermutations data gb).length →
      (∀ bi (hbi : bi < (p.range s e).length)
          pi (hpi : pi < (allGroupByPermutations data gb).length)
          (hd : bi * (allGroupByPermutations data gb).length + pi <
            data.length),
        identKey gb (data.get
            ⟨bi * (allGroupByPermutations data gb).length + pi, hd⟩) =
          (Value.dt ((p.range s e).get ⟨bi, hbi⟩).1,
           Value.dt ((p.range s e).get ⟨bi, hbi⟩).2,
           gb.map (getD
             ((allGroupByPermutations data gb).get ⟨pi, hpi⟩)))) →
      fill_group_by_permutations s e p data default gb = data ∧
      fill_group_by_permutations s e p
          (fill_group_by_permutations s e p data default gb) default
          gb =
        fill_group_by_permutations s e p data default gb) := by
  constructor
  · intro data h1 h2
    have hA := timeseries_noop p s e data default hs he h1 h2
    refine ⟨hA, ?_⟩
    rw [hA]
    exact hA
  · intro gb data h0 h1 h2
    have hB := grouped_fill_noop p s e gb data default hs he h0 h1 h2
    refine ⟨hB, ?_⟩
    rw [hB]
    exact hB

theorem C8_fill_noop_witness :
    Valid ⟨2021, 1, 1, 0, 0, 0, 0⟩ ∧ Valid ⟨2021, 1, 3, 0, 0, 0, 0⟩ ∧
    timeseries ⟨2021, 1, 1, 0, 0, 0, 0⟩ ⟨2021, 1, 3, 0, 0, 0, 0⟩ .day
      [[("_start_at", Value.dt ⟨2021, 1, 1, 0, 0, 0, 0⟩),
        ("_end_at", Value.dt ⟨2021, 1, 2, 0, 0, 0, 0⟩),
        ("value", Value.int 1)],
       [("_start_at", Value.dt ⟨2021, 1, 2, 0, 0, 0, 0⟩),
        ("_end_at", Value.dt ⟨2021, 1, 3, 0, 0, 0, 0⟩),
        ("value", Value.int 2)]]
      [("value", Value.int 0)] =
      [[("_start_at", Value.dt ⟨2021, 1, 1, 0, 0, 0, 0⟩),
        ("_end_at", Value.dt ⟨2021, 1, 2, 0, 0, 0, 0⟩),
        ("value", Value.int 1)],
       [("_start_at", Value.dt ⟨2021, 1, 2, 0, 0, 0, 0⟩),
        ("_end_at", Value.dt ⟨2021, 1, 3, 0, 0, 0, 0⟩),
        ("value", Value.int 2)]] ∧
    fill_group_by_permutations ⟨2021, 1, 1, 0, 0, 0, 0⟩
      ⟨2021, 1, 3, 0, 0, 0, 0⟩ .day
      [[("a", Value.int 1), ("_start_at", Value.dt ⟨2021, 1, 1, 0, 0, 0, 0⟩),
        ("_end_at", Value.dt ⟨2021, 1, 2, 0, 0, 0, 0⟩)],
       [("a", Value.int 2), ("_start_at", Value.dt ⟨2021, 1, 1, 0, 0, 0, 0⟩),
        ("_end_at", Value.dt ⟨2021, 1, 2, 0, 0, 0, 0⟩)],
       [("a", Value.int 1), ("_start_at", Value.dt ⟨2021, 1, 2, 0, 0, 0, 0⟩),
        ("_end_at", Value.dt ⟨2021, 1, 3, 0, 0, 0, 0⟩)],
       [("a", Value.int 2), ("_start_at", Value.dt ⟨2021, 1, 2, 0, 0, 0, 0⟩),
        ("_end_at", Value.dt ⟨2021, 1, 3, 0, 0, 0, 0⟩)]]
      [("value", Value.int 0)] ["a"] =
      [[("a", Value.int 1), ("_start_at", Value.dt ⟨2021, 1, 1, 0, 0, 0, 0⟩),
        ("_end_at", Value.dt ⟨2021, 1, 2, 0, 0, 0, 0⟩)],
       [("a", Value.int 2), ("_start_at", Value.dt ⟨2021, 1, 1, 0, 0, 0, 0⟩),
        ("_end_at", Value.dt ⟨2021, 1, 2, 0, 0, 0, 0⟩)],
       [("a", Value.int 1), ("_start_at", Value.dt ⟨2021, 1, 2, 0, 0, 0, 0⟩),
        ("_end_at", Value.dt ⟨2021, 1, 3, 0, 0, 0, 0⟩)],
       [("a", Value.int 2), ("_start_at", Value.dt ⟨2021, 1, 2, 0, 0, 0, 0⟩),
        ("_end_at", Value.dt ⟨2021, 1, 3, 0, 0, 0, 0⟩)]] :=
  ⟨by decide, by decide,
   ((C8_fill_noop .day ⟨2021, 1, 1, 0, 0, 0, 0⟩ ⟨2021, 1, 3, 0, 0, 0, 0⟩
      [("value", Value.int 0)] (by decide) (by decide)).1
      [[("_start_at", Value.dt ⟨2021, 1, 1, 0, 0, 0, 0⟩),
        ("_end_at", Value.dt ⟨2021, 1, 2, 0, 0, 0, 0⟩),
        ("value", Value.int 1)],
       [("_start_at", Value.dt ⟨2021, 1, 2, 0, 0, 0, 0⟩),
        ("_end_at", Value.dt ⟨2021, 1, 3, 0, 0, 0, 0⟩),
        ("value", Value.int 2)]]
      (by decide) (by decide)).1,
   ((C8_fill_noop .day ⟨2021, 1, 1, 0, 0, 0, 0⟩ ⟨2021, 1, 3, 0, 0, 0, 0⟩
      [("value", Value.int 0)] (by decide) (by decide)).2
      ["a"]
      [[("a", Value.int 1), ("_start_at", Value.dt ⟨2021, 1, 1, 0, 0, 0, 0⟩),
        ("_end_at", Value.dt ⟨2021, 1, 2, 0, 0, 0, 0⟩)],
       [("a", Value.int 2), ("_start_at", Value.dt ⟨2021, 1, 1, 0, 0, 0, 0⟩),
        ("_end_at", Value.dt ⟨2021, 1, 2, 0, 0, 0, 0⟩)],
       [("a", Value.int 1), ("_start_at", Value.dt ⟨2021, 1, 2, 0, 0, 0, 0⟩),
        ("_end_at", Value.dt ⟨2021, 1, 3, 0, 0, 0, 0⟩)],
       [("a", Value.int 2), ("_start_at", Value.dt ⟨2021, 1, 2, 0, 0, 0, 0⟩),
        ("_end_at", Value.dt ⟨2021, 1, 3, 0, 0, 0, 0⟩)]]
      (by decide) (by decide) (by decide)).1⟩

lemma range_get_ne (p : Period) {s e : Datetime} (hs : Valid s)
    (he : Valid e) {i j : Nat} (hi2 : i < (p.range s e).length)
    (hj2 : j < (p.range s e).length) (hne : i ≠ j) :
    ((p.range s e).get ⟨i, hi2⟩).1 ≠ ((p.range s e).get ⟨j, hj2⟩).1 := by
  have hmono : ∀ a b (ha : a < (p.range s e).length)
      (hb : b < (p.range s e).length), a < b →
      enc ((p.range s e).get ⟨a, ha⟩).1 <
        enc ((p.range s e).get ⟨b, hb⟩).1 :=
    fun a b ha hb hab =>
      List.pairwise_iff_get.mp (range_pairwise_encLt p hs he)
        ⟨a, ha⟩ ⟨b, hb⟩ hab
  intro heq
  rcases Nat.lt_or_ge i j with h | h
  · have h2 := hmono i j hi2 hj2 h
    rw [heq] at h2
    exact lt_irrefl _ h2
  · have h2 := hmono j i hj2 hi2 (by omega)
    rw [heq] at h2
    exact lt_irrefl _ h2

lemma perms_get_valuation_ne (data : List Row) (gb : List String)
    {i j : Nat} (hi2 : i < (allGroupByPermutations data gb).length)
    (hj2 : j < (allGroupByPermutations data gb).length) (hne : i ≠ j) :
    gb.map (getD ((allGroupByPermutations data gb).get ⟨i, hi2⟩)) ≠
      gb.map (getD ((allGroupByPermutations data gb).get ⟨j, hj2⟩)) := by
  have hpw := permsOver_distinct_valuations data gb
  rcases Nat.lt_or_ge i j with h | h
  · exact List.pairwise_iff_get.mp hpw ⟨i, hi2⟩ ⟨j, hj2⟩ h
  · exact (List.pairwise_iff_get.mp hpw ⟨j, hj2⟩ ⟨i, hi2⟩
      (Fin.mk_lt_mk.mpr (by omega))).symm

/-- C1 counterexample: when a `group_by` key is `_start_at` the output
identity keys are NOT pairwise distinct. With `group_by = ["_start_at"]`,
a one-day window and two rows (both carrying `_start_at`, `_end_at` and a
value for every group-by key), stamping the bucket bounds onto each
permutation overwrites the permutation's `_start_at` value, so both cells
of the single bucket look up the same hash key and the fill emits the
same row twice — two output rows with equal composite identity keys. -/
theorem C1_counterexample :
    (∀ r ∈ [[("_start_at", Value.dt ⟨2021, 1, 1, 0, 0, 0, 0⟩),
             ("_end_at", Value.dt ⟨2021, 1, 2, 0, 0, 0, 0⟩)],
            [("_start_at", Value.dt ⟨2021, 1, 5, 0, 0, 0, 0⟩),
             ("_end_at", Value.dt ⟨2021, 1, 6, 0, 0, 0, 0⟩)]],
      (getValue r "_start_at").isSome ∧ (getValue r "_end_at").isSome ∧
      ∀ k ∈ ["_start_at"], (getValue r k).isSome) ∧
    (fill_group_by_permutations ⟨2021, 1, 1, 0, 0, 0, 0⟩
      ⟨2021, 1, 2, 0, 0, 0, 0⟩ .day
      [[("_start_at", Value.dt ⟨2021, 1, 1, 0, 0, 0, 0⟩),
        ("_end_at", Value.dt ⟨2021, 1, 2, 0, 0, 0, 0⟩)],
       [("_start_at", Value.dt ⟨2021, 1, 5, 0, 0, 0, 0⟩),
        ("_end_at", Value.dt ⟨2021, 1, 6, 0, 0, 0, 0⟩)]]
      [] ["_start_at"]).length = 2 ∧
    identKey ["_start_at"]
      ((fill_group_by_permutations ⟨2021, 1, 1, 0, 0, 0, 0⟩
        ⟨2021, 1, 2, 0, 0, 0, 0⟩ .day
        [[("_start_at", Value.dt ⟨2021, 1, 1, 0, 0, 0, 0⟩),
          ("_end_at", Value.dt ⟨2021, 1, 2, 0, 0, 0, 0⟩)],
         [("_start_at", Value.dt ⟨2021, 1, 5, 0, 0, 0, 0⟩),
          ("_end_at", Value.dt ⟨2021, 1, 6, 0, 0, 0, 0⟩)]]
        [] ["_start_at"]).getD 0 []) =
    identKey ["_start_at"]
      ((fill_group_by_permutations ⟨2021, 1, 1, 0, 0, 0, 0⟩
        ⟨2021, 1, 2, 0, 0, 0, 0⟩ .day
        [[("_start_at", Value.dt ⟨2021, 1, 1, 0, 0, 0, 0⟩),
          ("_end_at", Value.dt ⟨2021, 1, 2, 0, 0, 0, 0⟩)],
         [("_start_at", Value.dt ⟨2021, 1, 5, 0, 0, 0, 0⟩),
          ("_end_at", Value.dt ⟨2021, 1, 6, 0, 0, 0, 0⟩)]]
        [] ["_start_at"]).getD 1 []) := by
  decide

/-- C1 (amended): for every period, valid bounded window, and list of
`group_by` keys NONE OF WHICH is `_start_at` or `_end_at`, the grouped
fill returns exactly (number of buckets) × (number of permutations) rows,
where the permutation count is the product over the deduplicated
`group_by` keys of the number of distinct observed values; output is
bucket-major then permutation-minor, each cell being `fillCell` (the raw
row whose composite identity key matches, else the default-merged
synthesized row); buckets abut and ascend in time; and all cells have
pairwise-distinct composite identity keys. -/
theorem C1_grouped_fill (p : Period) (s e : Datetime) (gb : List String)
    (data : List Row) (default : Row) (hs : Valid s) (he : Valid e)
    (hgb : ∀ k ∈ gb, k ≠ "_start_at" ∧ k ≠ "_end_at") :
    (fill_group_by_permutations s e p data default gb).length =
      (p.range s e).length * (allGroupByPermutations data gb).length ∧
    (allGroupByPermutations data gb).length =
      ((dedupKeys gb).map (fun k => (uniqueValues data k).length)).prod ∧
    (∀ bi (hbi : bi < (p.range s e).length)
        pi (hpi : pi < (allGroupByPermutations data gb).length),
      (fill_group_by_permutations s e p data default gb)[bi *
          (allGroupByPermutations data gb).length + pi]? =
        some (fillCell gb data default ((p.range s e).get ⟨bi, hbi⟩).1
          ((p.range s e).get ⟨bi, hbi⟩).2
          ((allGroupByPermutations data gb).get ⟨pi, hpi⟩))) ∧
    (∀ i (hi : i + 1 < (p.range s e).length),
      ((p.range s e).get ⟨i + 1, hi⟩).1 =
        ((p.range s e).get ⟨i, by omega⟩).2 ∧
      enc ((p.range s e).get ⟨i, by omega⟩).1 <
        enc ((p.range s e).get ⟨i + 1, hi⟩).1) ∧
    (∀ bi (hbi : bi < (p.range s e).length)
        pi (hpi : pi < (allGroupByPermutations data gb).length)
        bj (hbj : bj < (p.range s e).length)
        pj (hpj : pj < (allGroupByPermutations data gb).length),
      (bi, pi) ≠ (bj, pj) →
      identKey gb (fillCell gb data default
        ((p.range s e).get ⟨bi, hbi⟩).1 ((p.range s e).get ⟨bi, hbi⟩).2
        ((allGroupByPermutations data gb).get ⟨pi, hpi⟩)) ≠
      identKey gb (fillCell gb data default
        ((p.range s e).get ⟨bj, hbj⟩).1 ((p.range s e).get ⟨bj, hbj⟩).2
        ((allGroupByPermutations data gb).get ⟨pj, hpj⟩))) := by
  have hK : ∀ b ∈ p.range s e,
      ((allGroupByPermutations data gb).map
        (fillCell gb data default b.1 b.2)).length =
      (allGroupByPermutations data gb).length :=
    fun b _ => List.length_map _ _
  obtain ⟨hflen, hfget⟩ := flatMap_fixed_get (p.range s e) _ _ hK
  refine ⟨hflen, permsOver_length data (dedupKeys gb), ?_, ?_, ?_⟩
  · intro bi hbi pi hpi
    have h3 := hfget bi pi hbi hpi
    rw [List.getElem?_map, List.getElem?_eq_getElem hpi] at h3
    simp only [Option.map_some'] at h3
    exact h3
  · intro i hi
    exact range_adjacent p hs he hi
  · intro bi hbi pi hpi bj hbj pj hpj hne
    have hperm1 : ∀ k ∈ gb, k ∈
        ((allGroupByPermutations data gb).get ⟨pi, hpi⟩).map Prod.fst :=
      fun k hk => perm_has_key (List.get_mem _ _ hpi) hk
    have hperm2 : ∀ k ∈ gb, k ∈
        ((allGroupByPermutations data gb).get ⟨pj, hpj⟩).map Prod.fst :=
      fun k hk => perm_has_key (List.get_mem _ _ hpj) hk
    rw [identKey_fillCell gb data default _ _ _ hgb hperm1,
      identKey_fillCell gb data default _ _ _ hgb hperm2]
    intro heq
    simp only [Prod.mk.injEq] at heq
    by_cases hb : bi = bj
    · have hp : pi ≠ pj := fun hc => hne (by rw [hb, hc])
      exact perms_get_valuation_ne data gb hpi hpj hp heq.2.2
    · have he1 := heq.1
      injection he1 with hb1
      exact range_get_ne p hs he hbi hbj hb hb1

theorem C1_grouped_fill_witness :
    Valid ⟨2021, 1, 1, 0, 0, 0, 0⟩ ∧ Valid ⟨2021, 1, 2, 0, 0, 0, 0⟩ ∧
    (∀ k ∈ ["a"], k ≠ "_start_at" ∧ k ≠ "_end_at") ∧
    (fill_group_by_permutations ⟨2021, 1, 1, 0, 0, 0, 0⟩
      ⟨2021, 1, 2, 0, 0, 0, 0⟩ .day
      [[("a", Value.int 7), ("_start_at", Value.dt ⟨2021, 1, 1, 0, 0, 0, 0⟩),
        ("_end_at", Value.dt ⟨2021, 1, 2, 0, 0, 0, 0⟩)]]
      [] ["a"]).length =
    (Period.range .day ⟨2021, 1, 1, 0, 0, 0, 0⟩
        ⟨2021, 1, 2, 0, 0, 0, 0⟩).length *
      (allGroupByPermutations
        [[("a", Value.int 7), ("_start_at", Value.dt ⟨2021, 1, 1, 0, 0, 0, 0⟩),
          ("_end_at", Value.dt ⟨2021, 1, 2, 0, 0, 0, 0⟩)]] ["a"]).length :=
  ⟨by decide, by decide, by decide,
    (C1_grouped_fill .day ⟨2021, 1, 1, 0, 0, 0, 0⟩ ⟨2021, 1, 2, 0, 0, 0, 0⟩
      ["a"]
      [[("a", Value.int 7), ("_start_at", Value.dt ⟨2021, 1, 1, 0, 0, 0, 0⟩),
        ("_end_at", Value.dt ⟨2021, 1, 2, 0, 0, 0, 0⟩)]]
      [] (by decide) (by decide) (by decide)).1⟩
